import Mathlib

/-!
# Verification of the civcli simulation core

Shallow embedding of the resource / building / villager / research /
progression subsystems of the `game` package (final revisions:
`ResourceManager` with aggregated food, `VillagerManager` with
foraging/hunting tasks, `BuildingManager`, `ProgressManager`,
`ResearchManager`), together with proofs of the spec's testable
properties.

Modelling conventions:
* Go `float64` quantities are modelled as `ℚ` (exact arithmetic; the
  source's `0.00001` clamping threshold is kept as the rational
  `1/100000`).
* Go `int` is modelled as `ℤ` (counts stay tiny, overflow is irrelevant).
* A Go `map[string]T` is modelled as `String → Option T`; a read of a
  missing key yielding Go's zero value is modelled with `Option.getD`.
* The villager `Assignment` map is modelled as an association list
  `List (String × ℤ)` so that the sum of all assignment values can be
  stated; Go's unspecified iteration order is fixed to the list order
  (the properties proved below do not depend on that order).
* Methods that mutate the receiver are modelled as functions returning
  the Go return value paired with the updated state.
-/

/-- A Go `map[string]α`: `none` models an absent key. -/
def SMap (α : Type) : Type := String → Option α

/-- Write `v` under key `k` (Go `m[k] = v`). -/
def mset {α : Type} (m : SMap α) (k : String) (v : α) : SMap α :=
  fun s => if s = k then some v else m s

/-- Build a map from a literal list of entries (a Go map literal). -/
def mOfList {α : Type} : List (String × α) → SMap α
  | [] => fun _ => none
  | (k, v) :: rest => mset (mOfList rest) k v

/-- Read a numeric key, yielding Go's zero value `0` when absent. -/
def lookup0 (m : SMap ℚ) (k : String) : ℚ := (m k).getD 0

/-! ## ResourceManager (final revision, aggregated food) -/

/-- `ResourceManager` owns resource stocks, collection rates and the
list of resources that count as food sources. -/
structure ResourceManager where
  resources : SMap ℚ
  collectionRates : SMap ℚ
  foodSources : List String

/-- `NewResourceManager` with its literal initial maps. -/
def NewResourceManager : ResourceManager where
  resources := mOfList
    [("foraging", 0), ("wood", 0), ("stone", 0), ("gold", 0),
     ("knowledge", 0), ("hunting", 0)]
  collectionRates := mOfList
    [("foraging", 1), ("wood", 1), ("stone", 1/2), ("gold", 1/5),
     ("knowledge", 1/10), ("hunting", 9/5)]
  foodSources := ["foraging", "hunting"]

/-- `GetTotalFood` sums the stocks of all food sources. -/
def ResourceManager.GetTotalFood (rm : ResourceManager) : ℚ :=
  (rm.foodSources.map (fun s => lookup0 rm.resources s)).sum

/-- `HasFood` checks the aggregated food total. -/
def ResourceManager.HasFood (rm : ResourceManager) (amount : ℚ) : Bool :=
  decide (amount ≤ rm.GetTotalFood)

/-- The floating-drift clamp of `RemoveFood`: a stock left below
`0.00001` after a proportional removal is set to exactly `0`. -/
def clampQ (q : ℚ) : ℚ := if q < 1/100000 then 0 else q

/-- The proportional-removal loop inside `RemoveFood`: every food source
with a positive stock loses `amount * (stock / total)`, and the result
is clamped by `clampQ`. -/
def removeFoodLoop (total amount : ℚ) :
    List String → SMap ℚ → SMap ℚ
  | [], res => res
  | s :: rest, res =>
    let cur := lookup0 res s
    if 0 < cur then
      removeFoodLoop total amount rest
        (mset res s (clampQ (cur - amount * (cur / total))))
    else
      removeFoodLoop total amount rest res

/-- `RemoveFood` removes food proportionally from all food sources;
it fails (no mutation) when the aggregated total is insufficient. -/
def ResourceManager.RemoveFood (rm : ResourceManager) (amount : ℚ) :
    Bool × ResourceManager :=
  if rm.HasFood amount then
    if rm.GetTotalFood ≤ 0 ∨ amount ≤ 0 then (true, rm)
    else
      (true, { rm with
        resources :=
          removeFoodLoop rm.GetTotalFood amount rm.foodSources rm.resources })
  else (false, rm)

/-- `Add`: "food" credits the designated primary source "foraging";
otherwise the named stock is credited if the key exists. -/
def ResourceManager.Add (rm : ResourceManager) (resource : String)
    (amount : ℚ) : Bool × ResourceManager :=
  if resource = "food" then
    match rm.resources "foraging" with
    | some v =>
      (true, { rm with resources := mset rm.resources "foraging" (v + amount) })
    | none => (false, rm)
  else
    match rm.resources resource with
    | some v =>
      (true, { rm with resources := mset rm.resources resource (v + amount) })
    | none => (false, rm)

/-- `Remove`: "food" delegates to `RemoveFood`; otherwise the stock is
debited only when the key exists and holds at least `amount`. -/
def ResourceManager.Remove (rm : ResourceManager) (resource : String)
    (amount : ℚ) : Bool × ResourceManager :=
  if resource = "food" then rm.RemoveFood amount
  else
    match rm.resources resource with
    | some v =>
      if amount ≤ v then
        (true, { rm with resources := mset rm.resources resource (v - amount) })
      else (false, rm)
    | none => (false, rm)

/-- `Has`: "food" delegates to `HasFood`; otherwise the named stock must
exist and hold at least `amount`. -/
def ResourceManager.Has (rm : ResourceManager) (resource : String)
    (amount : ℚ) : Bool :=
  if resource = "food" then rm.HasFood amount
  else
    match rm.resources resource with
    | some v => decide (amount ≤ v)
    | none => false

/-- `Get` reads the named stock directly from the map (Go returns the
zero value `0` for an absent key — note: no "food" special case). -/
def ResourceManager.Get (rm : ResourceManager) (resource : String) : ℚ :=
  lookup0 rm.resources resource

/-- All stocks of a ledger are non-negative (the data-model invariant). -/
def NonNeg (rm : ResourceManager) : Prop :=
  ∀ s q, rm.resources s = some q → 0 ≤ q

/-! ## BuildingManager

Only the fields consulted by the verified operations (`buildings`,
`buildingCosts`) are embedded; the passive-effect and rate-bonus
catalogs are not read by `CanBuild`/`Build`/`GetCount`. -/

/-- `BuildingManager` owns constructed-building counts and the fixed
construction-cost catalog. Cost maps are embedded as association lists
(one entry per distinct resource, as in the Go map literal). -/
structure BuildingManager where
  buildings : SMap ℤ
  buildingCosts : SMap (List (String × ℚ))

/-- `NewBuildingManager` with its literal catalogs. -/
def NewBuildingManager : BuildingManager where
  buildings := mOfList
    [("hut", 0), ("farm", 0), ("lumber_mill", 0), ("mine", 0),
     ("market", 0), ("library", 0)]
  buildingCosts := mOfList
    [("hut", [("wood", 20)]),
     ("farm", [("wood", 100), ("stone", 50), ("food", 100)]),
     ("lumber_mill", [("wood", 100), ("stone", 300)]),
     ("mine", [("wood", 100), ("stone", 400)]),
     ("market", [("wood", 200), ("stone", 200), ("gold", 100)]),
     ("library", [("wood", 400), ("stone", 200), ("knowledge", 100)])]

/-- `Add` increments a building count when the key exists. -/
def BuildingManager.Add (bm : BuildingManager) (building : String)
    (count : ℤ) : Bool × BuildingManager :=
  match bm.buildings building with
  | some c =>
    (true, { bm with buildings := mset bm.buildings building (c + count) })
  | none => (false, bm)

/-- `GetCount` reads a building count (Go zero value `0` when absent). -/
def BuildingManager.GetCount (bm : BuildingManager) (building : String) : ℤ :=
  (bm.buildings building).getD 0

/-- `CanBuild`: the building must be in the cost catalog and every cost
line item must be affordable (`resources.Has`). -/
def BuildingManager.CanBuild (bm : BuildingManager) (building : String)
    (resources : ResourceManager) : Bool :=
  match bm.buildingCosts building with
  | some costs => costs.all (fun item => resources.Has item.1 item.2)
  | none => false

/-- `Build`: checks `CanBuild`, then removes every cost line item from
the ledger (ignoring each `Remove`'s boolean) and increments the count. -/
def BuildingManager.Build (bm : BuildingManager) (building : String)
    (resources : ResourceManager) :
    Bool × BuildingManager × ResourceManager :=
  if bm.CanBuild building resources then
    let newRes :=
      match bm.buildingCosts building with
      | some costs =>
        costs.foldl (fun r item => (r.Remove item.1 item.2).2) resources
      | none => resources
    (true, (bm.Add building 1).2, newRes)
  else (false, bm, resources)

/-! ## VillagerManager (final revision, foraging/hunting tasks) -/

/-- First-occurrence read of an assignment association list
(Go zero value `0` when the key is absent). -/
def aGet (l : List (String × ℤ)) (k : String) : ℤ :=
  ((l.find? (fun p => p.1 = k)).map Prod.snd).getD 0

/-- Whether an assignment key is present (the `canGather` comma-ok check). -/
def aMem (l : List (String × ℤ)) (k : String) : Bool :=
  (l.find? (fun p => p.1 = k)).isSome

/-- Go `m[k] = v` on an assignment map: overwrite the first occurrence,
or append the entry when the key is absent. -/
def aSet : List (String × ℤ) → String → ℤ → List (String × ℤ)
  | [], k, v => [(k, v)]
  | (k1, v1) :: rest, k, v =>
    if k1 = k then (k, v) :: rest else (k1, v1) :: aSet rest k v

/-- Go `m[k] += c` on an assignment map. -/
def aAdd (l : List (String × ℤ)) (k : String) (c : ℤ) : List (String × ℤ) :=
  aSet l k (aGet l k + c)

/-- Sum of all assignment values (including the "idle" bucket). -/
def aSum (l : List (String × ℤ)) : ℤ := (l.map Prod.snd).sum

/-- `VillagerType` holds a population count, per-individual food cost
and the task-assignment map. -/
structure VillagerType where
  Count : ℤ
  FoodCost : ℚ
  Assignment : List (String × ℤ)

/-- `VillagerManager` maps villager-type names to their state. -/
structure VillagerManager where
  villagers : SMap VillagerType

/-- Overwrite one villager type's state. -/
def vset (vm : VillagerManager) (t : String) (v : VillagerType) :
    VillagerManager :=
  ⟨fun s => if s = t then some v else vm.villagers s⟩

/-- `NewVillagerManager` with its two default villager types. -/
def NewVillagerManager : VillagerManager :=
  ⟨mOfList
    [("villager",
      { Count := 0, FoodCost := 1/2,
        Assignment :=
          [("foraging", 0), ("wood", 0), ("stone", 0), ("gold", 0),
           ("knowledge", 0), ("hunting", 0), ("idle", 0)] }),
     ("scholar",
      { Count := 0, FoodCost := 3/4,
        Assignment := [("knowledge", 0), ("idle", 0)] })]⟩

/-- `Add` increments the count and the idle bucket by the same amount. -/
def VillagerManager.Add (vm : VillagerManager) (villagerType : String)
    (count : ℤ) : Bool × VillagerManager :=
  match vm.villagers villagerType with
  | some v =>
    (true, vset vm villagerType
      { v with Count := v.Count + count,
               Assignment := aAdd v.Assignment "idle" count })
  | none => (false, vm)

/-- The removal loop over the non-idle assignment entries: each entry
with a positive value is drained until the remainder is satisfied
(draining stops, as the Go loop breaks, once an entry covers it). -/
def drainAssignments : List (String × ℤ) → ℤ → List (String × ℤ)
  | [], _ => []
  | (k, a) :: rest, remaining =>
    if k = "idle" then (k, a) :: drainAssignments rest remaining
    else if 0 < a then
      if remaining ≤ a then (k, a - remaining) :: rest
      else (k, 0) :: drainAssignments rest (remaining - a)
    else (k, a) :: drainAssignments rest remaining

/-- The state update performed by a successful `Remove`: drain idle
first, then walk the other assignment entries. -/
def removeVillagers (v : VillagerType) (count : ℤ) : VillagerType :=
  let idleCount := aGet v.Assignment "idle"
  if count ≤ idleCount then
    { v with Count := v.Count - count,
             Assignment := aAdd v.Assignment "idle" (-count) }
  else
    { v with Count := v.Count - count,
             Assignment :=
               drainAssignments (aSet v.Assignment "idle" 0)
                 (count - idleCount) }

/-- `Remove` fails when the type is unknown or the count is too small;
otherwise it decrements the count, draining idle first and then the
other assignments. -/
def VillagerManager.Remove (vm : VillagerManager) (villagerType : String)
    (count : ℤ) : Bool × VillagerManager :=
  match vm.villagers villagerType with
  | some v =>
    if count ≤ v.Count then
      (true, vset vm villagerType (removeVillagers v count))
    else (false, vm)
  | none => (false, vm)

/-- `Assign` moves `count` villagers from idle to a task the type can
perform; it fails when the task key is absent or idle is insufficient. -/
def VillagerManager.Assign (vm : VillagerManager) (villagerType resource : String)
    (count : ℤ) : Bool × VillagerManager :=
  match vm.villagers villagerType with
  | some v =>
    if aMem v.Assignment resource then
      if aGet v.Assignment "idle" < count then (false, vm)
      else
        (true, vset vm villagerType
          { v with Assignment :=
              (aAdd (aAdd v.Assignment resource count) "idle" (-count)) })
    else (false, vm)
  | none => (false, vm)

/-- `Unassign` mirrors `Assign`: it moves `count` villagers from a task
back to idle. -/
def VillagerManager.Unassign (vm : VillagerManager) (villagerType resource : String)
    (count : ℤ) : Bool × VillagerManager :=
  match vm.villagers villagerType with
  | some v =>
    if aMem v.Assignment resource then
      if aGet v.Assignment resource < count then (false, vm)
      else
        (true, vset vm villagerType
          { v with Assignment :=
              (aAdd (aAdd v.Assignment resource (-count)) "idle" count) })
    else (false, vm)
  | none => (false, vm)

/-- `GetFoodConsumption`: total upkeep of the two catalog villager types
(Go iterates the `villagers` map; the embedding reads the two fixed
keys, which are the only keys any reachable manager has). -/
def VillagerManager.GetFoodConsumption (vm : VillagerManager) : ℚ :=
  (["villager", "scholar"].map (fun t =>
    match vm.villagers t with
    | some v => (v.Count : ℚ) * v.FoodCost
    | none => 0)).sum

/-- The workforce invariant of the spec: every villager type's
assignment keys are distinct (it is a Go map) and the assignment values
(idle included) sum to the count. -/
def WFInv (vm : VillagerManager) : Prop :=
  ∀ t v, vm.villagers t = some v →
    (v.Assignment.map Prod.fst).Nodup ∧ aSum v.Assignment = v.Count

/-! ## ProgressManager

The `ageUnlocks` catalog is not read by `CheckAdvancement` and is not
embedded. -/

/-- What is needed to advance to an age. -/
structure AgeRequirement where
  Resources : List (String × ℚ)
  Buildings : List (String × ℤ)

/-- `ProgressManager` owns the ordered age list and the requirements. -/
structure ProgressManager where
  ages : List String
  ageRequirements : SMap AgeRequirement

/-- `NewProgressManager` with its literal age ladder. -/
def NewProgressManager : ProgressManager where
  ages :=
    ["Stone Age", "Bronze Age", "Iron Age", "Medieval Age",
     "Renaissance Age", "Industrial Age", "Modern Age"]
  ageRequirements := mOfList
    [("Bronze Age",
      { Resources := [("stone", 50), ("food", 100)],
        Buildings := [("hut", 3), ("farm", 2)] }),
     ("Iron Age",
      { Resources := [("stone", 100), ("wood", 150), ("knowledge", 20)],
        Buildings := [("mine", 2), ("lumber_mill", 2)] }),
     ("Medieval Age",
      { Resources :=
          [("stone", 200), ("wood", 250), ("gold", 50), ("knowledge", 50)],
        Buildings := [("market", 1), ("library", 1)] }),
     ("Renaissance Age",
      { Resources := [("gold", 150), ("knowledge", 100)],
        Buildings := [("library", 3), ("market", 2)] }),
     ("Industrial Age",
      { Resources := [("gold", 300), ("knowledge", 200)],
        Buildings := [("library", 5), ("market", 4)] }),
     ("Modern Age",
      { Resources := [("gold", 500), ("knowledge", 400)],
        Buildings := [("library", 8), ("market", 6)] })]

/-- `GetCurrentAgeIndex`: index of the first matching age, else `0`. -/
def ProgressManager.GetCurrentAgeIndex (pm : ProgressManager)
    (currentAge : String) : ℕ :=
  (pm.ages.findIdx? (fun a => a = currentAge)).getD 0

/-- `GetNextAge`: the age after the current index, or `""` at the end. -/
def ProgressManager.GetNextAge (pm : ProgressManager)
    (currentAge : String) : String :=
  let currentIndex := pm.GetCurrentAgeIndex currentAge
  if currentIndex < pm.ages.length - 1 then
    (pm.ages.get? (currentIndex + 1)).getD ""
  else ""

/-- The requirement check inside `CheckAdvancement`: every listed
resource read via `Get` and every listed building count must reach its
threshold. -/
def reqMet (resources : ResourceManager) (buildings : BuildingManager)
    (req : AgeRequirement) : Bool :=
  req.Resources.all (fun item => decide (item.2 ≤ resources.Get item.1)) &&
    req.Buildings.all (fun item => decide (item.2 ≤ buildings.GetCount item.1))

/-- `CheckAdvancement`: returns the next age exactly when every resource
requirement (read via `Get`) and every building requirement (read via
`GetCount`) is met, else the current age. It is a pure query. -/
def ProgressManager.CheckAdvancement (pm : ProgressManager)
    (resources : ResourceManager) (buildings : BuildingManager)
    (currentAge : String) : String :=
  let nextAge := pm.GetNextAge currentAge
  if nextAge = "" then currentAge
  else
    match pm.ageRequirements nextAge with
    | none => currentAge
    | some req =>
      if reqMet resources buildings req then nextAge
      else currentAge

/-! ## ResearchManager

The `Unlocks map[string]interface` payload of a technology carries no
behavior used by `StartResearch`/`ContinueResearch` and is not embedded. -/

/-- A researchable technology. -/
structure Technology where
  Name : String
  Description : String
  Age : String
  Cost : ℚ
  Prerequisites : List String

/-- Go's zero-value `Technology` (returned by a map read on a missing
key). -/
def zeroTechnology : Technology :=
  { Name := "", Description := "", Age := "", Cost := 0, Prerequisites := [] }

/-- `ResearchManager` owns the catalog, the researched set (a Go
`map[string]bool`, read with default `false`), and the single
in-progress slot. -/
structure ResearchManager where
  technologies : SMap Technology
  researchedTechs : String → Bool
  currentResearch : String
  researchProgress : ℚ

/-- `NewResearchManager` with its literal technology catalog. -/
def NewResearchManager : ResearchManager where
  technologies := mOfList
    [("agriculture",
      { Name := "Agriculture",
        Description := "Improve food production methods",
        Age := "Stone Age", Cost := 20, Prerequisites := [] }),
     ("toolmaking",
      { Name := "Toolmaking",
        Description := "Develop better tools for resource gathering",
        Age := "Stone Age", Cost := 25, Prerequisites := [] }),
     ("writing",
      { Name := "Writing",
        Description := "Develop a writing system to record knowledge",
        Age := "Bronze Age", Cost := 40, Prerequisites := [] }),
     ("metallurgy",
      { Name := "Metallurgy",
        Description := "Learn how to work with metals",
        Age := "Bronze Age", Cost := 50, Prerequisites := [] }),
     ("mathematics",
      { Name := "Mathematics",
        Description := "Develop mathematical concepts",
        Age := "Iron Age", Cost := 60, Prerequisites := ["writing"] })]
  researchedTechs := fun _ => false
  currentResearch := ""
  researchProgress := 0

/-- `StartResearch` fails when the technology is unknown, already
researched, or has an unmet prerequisite; otherwise it sets the
in-progress slot and initializes progress to the carry-over points.
(The source performs no check of the in-progress slot itself.) -/
def ResearchManager.StartResearch (rm : ResearchManager)
    (techName : String) (knowledgePoints : ℚ) : Bool × ResearchManager :=
  match rm.technologies techName with
  | none => (false, rm)
  | some tech =>
    if rm.researchedTechs techName then (false, rm)
    else if tech.Prerequisites.any (fun p => !rm.researchedTechs p) then
      (false, rm)
    else
      (true, { rm with
        currentResearch := techName, researchProgress := knowledgePoints })

/-- `ContinueResearch` adds points to the in-progress technology; when
the accumulated progress reaches the cost it marks the technology
researched, clears the slot and reports completion. -/
def ResearchManager.ContinueResearch (rm : ResearchManager)
    (knowledgePoints : ℚ) : (String × Bool) × ResearchManager :=
  if rm.currentResearch = "" then (("", false), rm)
  else
    let tech := (rm.technologies rm.currentResearch).getD zeroTechnology
    let progress := rm.researchProgress + knowledgePoints
    if tech.Cost ≤ progress then
      ((rm.currentResearch, true),
        { rm with
          researchedTechs :=
            (fun s => if s = rm.currentResearch then true
                      else rm.researchedTechs s),
          currentResearch := "",
          researchProgress := 0 })
    else (("", false), { rm with researchProgress := progress })

/-! ## Concrete states used by witnesses and counterexamples -/

/-- A ledger with foraging = 20 and hunting = 2 (total food 22), the
spec's example scenario. -/
def rmExample22 : ResourceManager :=
  ((NewResourceManager.Add "foraging" 20).2.Add "hunting" 2).2

/-- A ledger with foraging = 5 and hunting = 0 (total food 5). -/
def rmExample5 : ResourceManager :=
  (NewResourceManager.Add "foraging" 5).2

/-- A ledger after `Add("food", 150)` (credits foraging). -/
def rmFood150 : ResourceManager :=
  (NewResourceManager.Add "food" 150).2

/-- A ledger with ample stocks of everything (total food 1000). -/
def rmRich : ResourceManager :=
  ((((NewResourceManager.Add "stone" 1000).2.Add "wood" 1000).2.Add
    "foraging" 500).2.Add "hunting" 500).2

/-- A building registry with 3 huts and 2 farms. -/
def bmRich : BuildingManager :=
  ((NewBuildingManager.Add "hut" 3).2.Add "farm" 2).2

/-- A ledger with wood = 25 (enough for a hut). -/
def rmWood25 : ResourceManager :=
  (NewResourceManager.Add "wood" 25).2

/-- The research board after starting "writing" (cost 40) with no
carry-over. -/
def researchWriting0 : ResearchManager :=
  (NewResearchManager.StartResearch "writing" 0).2

/-- The research board after one `ContinueResearch(25)` on "writing". -/
def researchWriting25 : ResearchManager :=
  (researchWriting0.ContinueResearch 25).2

/-- The research board researching "agriculture". -/
def researchAgri : ResearchManager :=
  (NewResearchManager.StartResearch "agriculture" 0).2

/-- Sum of the positive non-idle assignment entries (what the removal
loop can drain). -/
def posSum : List (String × ℤ) → ℤ
  | [] => 0
  | (k, a) :: rest => (if k ≠ "idle" ∧ 0 < a then a else 0) + posSum rest

/-- Sum of the idle entries of an assignment list. -/
def idleSum : List (String × ℤ) → ℤ
  | [] => 0
  | (k, a) :: rest => (if k = "idle" then a else 0) + idleSum rest

/-! ## Helper lemmas: maps -/

theorem mset_same {α : Type} (m : SMap α) (k : String) (v : α) :
    mset m k v k = some v := by
  simp [mset]

theorem mset_other {α : Type} (m : SMap α) (k : String) (v : α) (s : String)
    (h : s ≠ k) : mset m k v s = m s := by
  simp [mset, h]

theorem lookup0_mset_same (m : SMap ℚ) (k : String) (v : ℚ) :
    lookup0 (mset m k v) k = v := by
  simp [lookup0, mset]

theorem lookup0_mset_other (m : SMap ℚ) (k : String) (v : ℚ) (s : String)
    (h : s ≠ k) : lookup0 (mset m k v) s = lookup0 m s := by
  simp [lookup0, mset, h]

theorem nonNeg_lookup0 {rm : ResourceManager} (h : NonNeg rm) (s : String) :
    0 ≤ lookup0 rm.resources s := by
  unfold lookup0
  cases hc : rm.resources s with
  | none => simp
  | some q => simpa using h s q hc

/-! ## Helper lemmas: RemoveFood -/

theorem clampQ_nonneg (q : ℚ) (h : 0 ≤ q) : 0 ≤ clampQ q := by
  unfold clampQ
  split <;> simp [h]

/-- The proportional-removal loop never writes a negative stock when the
removal amount does not exceed the captured total. -/
theorem removeFoodLoop_nonneg (total amount : ℚ) (ht : 0 < total)
    (ha : amount ≤ total) :
    ∀ (l : List String) (res : SMap ℚ),
      (∀ s q, res s = some q → 0 ≤ q) →
      ∀ s q, removeFoodLoop total amount l res s = some q → 0 ≤ q := by
  intro l
  induction l with
  | nil => intro res hres s q hq; exact hres s q hq
  | cons s0 rest ih =>
    intro res hres s q hq
    rw [removeFoodLoop] at hq
    by_cases hpos : 0 < lookup0 res s0
    · rw [if_pos hpos] at hq
      refine ih _ ?_ s q hq
      intro s1 q1 h1
      by_cases hs1 : s1 = s0
      · subst hs1
        rw [mset_same] at h1
        obtain rfl : clampQ (lookup0 res s1 -
            amount * (lookup0 res s1 / total)) = q1 := by
          exact Option.some.inj h1
        apply clampQ_nonneg
        have hfrac : amount * (lookup0 res s1 / total) ≤ lookup0 res s1 := by
          rw [mul_div_assoc']
          rw [div_le_iff₀ ht]
          calc amount * lookup0 res s1 ≤ total * lookup0 res s1 := by
                apply mul_le_mul_of_nonneg_right ha (le_of_lt hpos)
            _ = lookup0 res s1 * total := by ring
        linarith
      · rw [mset_other _ _ _ _ hs1] at h1
        exact hres s1 q1 h1
    · rw [if_neg hpos] at hq
      exact ih res hres s q hq

/-- `RemoveFood` preserves non-negativity of every stock. -/
theorem removeFood_nonneg (rm : ResourceManager) (amount : ℚ)
    (h : NonNeg rm) : NonNeg (rm.RemoveFood amount).2 := by
  unfold ResourceManager.RemoveFood
  by_cases hf : rm.HasFood amount
  · rw [if_pos hf]
    by_cases hz : rm.GetTotalFood ≤ 0 ∨ amount ≤ 0
    · rw [if_pos hz]; exact h
    · rw [if_neg hz]
      push_neg at hz
      intro s q hq
      have ht : 0 < rm.GetTotalFood := hz.1
      have ha : amount ≤ rm.GetTotalFood := by
        have := of_decide_eq_true (hf : decide (amount ≤ rm.GetTotalFood) = true)
        exact this
      exact removeFoodLoop_nonneg _ _ ht ha _ _ h s q hq
  · rw [if_neg hf]; exact h

/-- The freshly constructed ledger satisfies the non-negativity invariant. -/
theorem nonNeg_new : NonNeg NewResourceManager := by
  intro s q h
  simp only [NewResourceManager, mOfList, mset] at h
  split_ifs at h <;> simp_all

/-- `Add` with a non-negative amount preserves non-negativity. -/
theorem add_nonneg_pres (rm : ResourceManager) (r : String) (amount : ℚ)
    (ha : 0 ≤ amount) (h : NonNeg rm) : NonNeg (rm.Add r amount).2 := by
  unfold ResourceManager.Add
  split
  · split
    next v hv =>
      intro s q hq
      simp only [mset] at hq
      split_ifs at hq with hs
      · have hvq : v + amount = q := Option.some.inj hq
        have h0 := h _ _ (hs ▸ hv)
        linarith
      · exact h _ _ hq
    next => exact h
  · split
    next v hv =>
      intro s q hq
      simp only [mset] at hq
      split_ifs at hq with hs
      · have hvq : v + amount = q := Option.some.inj hq
        have h0 := h _ _ (hs ▸ hv)
        linarith
      · exact h _ _ hq
    next => exact h

/-- `Remove` (any amount) preserves non-negativity. -/
theorem remove_nonneg_pres (rm : ResourceManager) (r : String) (amount : ℚ)
    (h : NonNeg rm) : NonNeg (rm.Remove r amount).2 := by
  unfold ResourceManager.Remove
  split
  · exact removeFood_nonneg rm amount h
  · split
    next v hv =>
      split
      next hle =>
        intro s q hq
        simp only [mset] at hq
        split_ifs at hq with hs
        · have hvq : v - amount = q := Option.some.inj hq
          linarith
        · exact h _ _ hq
      next => exact h
    next => exact h

/-- When `Has` reports insufficient stock, `Remove` fails with no
mutation. -/
theorem remove_of_has_false (rm : ResourceManager) (r : String) (amount : ℚ)
    (h : rm.Has r amount = false) : rm.Remove r amount = (false, rm) := by
  unfold ResourceManager.Has at h
  unfold ResourceManager.Remove
  split
  next hr =>
    rw [if_pos hr] at h
    unfold ResourceManager.RemoveFood
    rw [h]
    simp
  next hr =>
    rw [if_neg hr] at h
    cases hv : rm.resources r with
    | none => simp only [hv]
    | some v =>
      rw [hv] at h
      have hlt : ¬ (amount ≤ v) := by simpa using h
      simp only [hv, if_neg hlt]

/-- With the catalog food sources, the total food is the sum of the
foraging and hunting stocks. -/
theorem getTotalFood_two (rm : ResourceManager)
    (hfs : rm.foodSources = ["foraging", "hunting"]) :
    rm.GetTotalFood =
      lookup0 rm.resources "foraging" + lookup0 rm.resources "hunting" := by
  unfold ResourceManager.GetTotalFood
  rw [hfs]
  simp

/-- Characterization of a successful `RemoveFood` on the catalog food
sources: it returns `true`, each positive source is drained by its
proportional share and clamped, and nothing else changes. -/
theorem removeFood_spec (rm : ResourceManager) (x : ℚ)
    (hfs : rm.foodSources = ["foraging", "hunting"])
    (hx : 0 < x)
    (hxt : x ≤ lookup0 rm.resources "foraging" + lookup0 rm.resources "hunting") :
    (rm.RemoveFood x).1 = true ∧
    (rm.RemoveFood x).2.Get "foraging" =
      (if 0 < lookup0 rm.resources "foraging" then
        clampQ (lookup0 rm.resources "foraging" -
          x * (lookup0 rm.resources "foraging" /
            (lookup0 rm.resources "foraging" + lookup0 rm.resources "hunting")))
      else lookup0 rm.resources "foraging") ∧
    (rm.RemoveFood x).2.Get "hunting" =
      (if 0 < lookup0 rm.resources "hunting" then
        clampQ (lookup0 rm.resources "hunting" -
          x * (lookup0 rm.resources "hunting" /
            (lookup0 rm.resources "foraging" + lookup0 rm.resources "hunting")))
      else lookup0 rm.resources "hunting") ∧
    (∀ s, s ≠ "foraging" → s ≠ "hunting" →
      (rm.RemoveFood x).2.resources s = rm.resources s) ∧
    (rm.RemoveFood x).2.foodSources = rm.foodSources ∧
    (rm.RemoveFood x).2.collectionRates = rm.collectionRates := by
  set f := lookup0 rm.resources "foraging" with hfdef
  set h := lookup0 rm.resources "hunting" with hhdef
  have htot : rm.GetTotalFood = f + h := getTotalFood_two rm hfs
  have ht : 0 < f + h := lt_of_lt_of_le hx hxt
  have hhasfood : rm.HasFood x = true := by
    unfold ResourceManager.HasFood
    rw [htot]
    exact decide_eq_true hxt
  have hnotz : ¬ (rm.GetTotalFood ≤ 0 ∨ x ≤ 0) := by
    rw [htot]
    push_neg
    exact ⟨ht, hx⟩
  unfold ResourceManager.RemoveFood
  rw [hhasfood, if_pos rfl, if_neg hnotz]
  rw [htot, hfs]
  rw [removeFoodLoop]
  dsimp only
  rw [← hfdef]
  by_cases hfp : 0 < f
  · rw [if_pos hfp]
    rw [removeFoodLoop]
    rw [lookup0_mset_other _ _ _ _ (by decide), ← hhdef]
    by_cases hhp : 0 < h
    · rw [if_pos hhp]
      rw [removeFoodLoop]
      refine ⟨rfl, ?_, ?_, ?_, rfl, rfl⟩
      · show lookup0 _ "foraging" = _
        rw [lookup0_mset_other _ _ _ _ (by decide), lookup0_mset_same,
          if_pos hfp]
      · show lookup0 _ "hunting" = _
        rw [lookup0_mset_same, if_pos hhp]
      · intro s hs1 hs2
        show mset _ _ _ s = _
        rw [mset_other _ _ _ _ hs2, mset_other _ _ _ _ hs1]
    · rw [if_neg hhp]
      rw [removeFoodLoop]
      refine ⟨rfl, ?_, ?_, ?_, rfl, rfl⟩
      · show lookup0 _ "foraging" = _
        rw [lookup0_mset_same, if_pos hfp]
      · show lookup0 _ "hunting" = _
        rw [lookup0_mset_other _ _ _ _ (by decide), ← hhdef, if_neg hhp]
      · intro s hs1 hs2
        show mset _ _ _ s = _
        rw [mset_other _ _ _ _ hs1]
  · rw [if_neg hfp]
    rw [removeFoodLoop]
    rw [← hhdef]
    by_cases hhp : 0 < h
    · rw [if_pos hhp]
      rw [removeFoodLoop]
      refine ⟨rfl, ?_, ?_, ?_, rfl, rfl⟩
      · show lookup0 _ "foraging" = _
        rw [lookup0_mset_other _ _ _ _ (by decide), ← hfdef, if_neg hfp]
      · show lookup0 _ "hunting" = _
        rw [lookup0_mset_same, if_pos hhp]
      · intro s hs1 hs2
        show mset _ _ _ s = _
        rw [mset_other _ _ _ _ hs2]
    · rw [if_neg hhp]
      rw [removeFoodLoop]
      exact ⟨rfl, by rw [if_neg hfp]; exact hfdef.symm,
        by rw [if_neg hhp]; exact hhdef.symm, fun s _ _ => rfl, rfl, rfl⟩

/-- One source's observed decrease under proportional removal with
clamping: at least its proportional share, and less than the share plus
the clamp threshold. -/
theorem drain_piece_bounds (c x t : ℚ) (hc : 0 ≤ c) (hx : 0 < x)
    (hxt : x ≤ t) (ht : 0 < t) :
    x * (c / t) ≤ c - (if 0 < c then clampQ (c - x * (c / t)) else c) ∧
    c - (if 0 < c then clampQ (c - x * (c / t)) else c) <
      x * (c / t) + 1/100000 := by
  by_cases hcp : 0 < c
  · rw [if_pos hcp]
    have hshare : x * (c / t) ≤ c := by
      rw [mul_div_assoc']
      rw [div_le_iff₀ ht]
      calc x * c ≤ t * c := mul_le_mul_of_nonneg_right hxt hc
        _ = c * t := by ring
    have hrem : 0 ≤ c - x * (c / t) := by linarith
    unfold clampQ
    split
    next hlt => constructor <;> linarith
    next hlt => constructor <;> linarith
  · rw [if_neg hcp]
    have hc0 : c = 0 := le_antisymm (not_lt.mp hcp) hc
    subst hc0
    norm_num

/-- Bounds on the aggregate food decrease of a successful `RemoveFood`:
exactly the requested amount up to the clamp slack (strictly less than
`0.00001` per source). -/
theorem removeFood_total_bounds (rm : ResourceManager) (x : ℚ)
    (hfs : rm.foodSources = ["foraging", "hunting"])
    (hf : 0 ≤ lookup0 rm.resources "foraging")
    (hh : 0 ≤ lookup0 rm.resources "hunting")
    (hx : 0 < x)
    (hxt : x ≤ lookup0 rm.resources "foraging" + lookup0 rm.resources "hunting") :
    x ≤ rm.GetTotalFood - (rm.RemoveFood x).2.GetTotalFood ∧
    rm.GetTotalFood - (rm.RemoveFood x).2.GetTotalFood < x + 2 * (1/100000) := by
  obtain ⟨-, h2, h3, -, h5, -⟩ := removeFood_spec rm x hfs hx hxt
  set f := lookup0 rm.resources "foraging" with hfdef
  set h := lookup0 rm.resources "hunting" with hhdef
  have ht : 0 < f + h := lt_of_lt_of_le hx hxt
  have htot : rm.GetTotalFood = f + h := getTotalFood_two rm hfs
  have htot2 : (rm.RemoveFood x).2.GetTotalFood =
      (rm.RemoveFood x).2.Get "foraging" + (rm.RemoveFood x).2.Get "hunting" :=
    getTotalFood_two _ (h5.trans hfs)
  have hsum : x * (f / (f + h)) + x * (h / (f + h)) = x := by
    field_simp
    ring
  have hbf := drain_piece_bounds f x (f + h) hf hx hxt ht
  have hbh := drain_piece_bounds h x (f + h) hh hx hxt ht
  rw [htot, htot2, h2, h3]
  constructor
  · calc x = x * (f / (f + h)) + x * (h / (f + h)) := hsum.symm
      _ ≤ _ := by
        have := hbf.1
        have := hbh.1
        linarith
  · have := hbf.2
    have := hbh.2
    linarith

/-- `Has` on a non-food resource means the key exists with enough stock. -/
theorem has_nonfood (rm : ResourceManager) (r : String) (a : ℚ)
    (hr : r ≠ "food") :
    rm.Has r a = true ↔ ∃ v, rm.resources r = some v ∧ a ≤ v := by
  unfold ResourceManager.Has
  rw [if_neg hr]
  cases hv : rm.resources r with
  | none => simp
  | some v => simp

/-- A `Remove` on a sufficiently stocked non-food resource: the exact
state update. -/
theorem remove_nonfood_eq (rm : ResourceManager) (r : String) (a v : ℚ)
    (hr : r ≠ "food") (hv : rm.resources r = some v) (hle : a ≤ v) :
    rm.Remove r a =
      (true, { rm with resources := mset rm.resources r (v - a) }) := by
  unfold ResourceManager.Remove
  rw [if_neg hr]
  simp only [hv, if_pos hle]

/-- `Has` on "food" checks the aggregated total. -/
theorem has_food_iff (rm : ResourceManager) (a : ℚ) :
    rm.Has "food" a = true ↔ a ≤ rm.GetTotalFood := by
  unfold ResourceManager.Has ResourceManager.HasFood
  simp

/-- `RemoveFood` requesting more than the total fails with no mutation. -/
theorem removeFood_overdraw (rm : ResourceManager) (x : ℚ)
    (h : rm.GetTotalFood < x) : rm.RemoveFood x = (false, rm) := by
  unfold ResourceManager.RemoveFood ResourceManager.HasFood
  rw [decide_eq_false (not_le.mpr h)]
  simp

/-! ## Helper lemmas: assignment association lists -/

theorem aGet_nil (k : String) : aGet [] k = 0 := rfl

theorem aGet_cons (k1 : String) (v1 : ℤ) (rest : List (String × ℤ))
    (k : String) :
    aGet ((k1, v1) :: rest) k = if k1 = k then v1 else aGet rest k := by
  unfold aGet
  rw [List.find?]
  by_cases h : k1 = k
  · simp [h]
  · simp [h]

theorem aGet_aSet_same (l : List (String × ℤ)) (k : String) (v : ℤ) :
    aGet (aSet l k v) k = v := by
  induction l with
  | nil => simp [aSet, aGet_cons]
  | cons p rest ih =>
    obtain ⟨k1, v1⟩ := p
    rw [aSet]
    by_cases h : k1 = k
    · rw [if_pos h, aGet_cons, if_pos rfl]
    · rw [if_neg h, aGet_cons, if_neg h, ih]

theorem aGet_aSet_other (l : List (String × ℤ)) (k : String) (v : ℤ)
    (s : String) (h : k ≠ s) : aGet (aSet l k v) s = aGet l s := by
  induction l with
  | nil => simp [aSet, aGet_cons, h, aGet_nil]
  | cons p rest ih =>
    obtain ⟨k1, v1⟩ := p
    rw [aSet]
    by_cases h1 : k1 = k
    · rw [if_pos h1, aGet_cons, aGet_cons, h1, if_neg h, if_neg h]
    · rw [if_neg h1, aGet_cons, aGet_cons, ih]

theorem aSum_nil : aSum [] = 0 := rfl

theorem aSum_cons (k1 : String) (v1 : ℤ) (rest : List (String × ℤ)) :
    aSum ((k1, v1) :: rest) = v1 + aSum rest := by
  unfold aSum
  simp

theorem aSum_aSet (l : List (String × ℤ)) (k : String) (v : ℤ) :
    aSum (aSet l k v) = aSum l - aGet l k + v := by
  induction l with
  | nil => simp [aSet, aSum_cons, aSum_nil, aGet_nil]
  | cons p rest ih =>
    obtain ⟨k1, v1⟩ := p
    rw [aSet]
    by_cases h : k1 = k
    · rw [if_pos h, aSum_cons, aSum_cons, aGet_cons, if_pos h]
      ring
    · rw [if_neg h, aSum_cons, aSum_cons, ih, aGet_cons, if_neg h]
      ring

theorem aSum_aAdd (l : List (String × ℤ)) (k : String) (c : ℤ) :
    aSum (aAdd l k c) = aSum l + c := by
  unfold aAdd
  rw [aSum_aSet]
  ring

/-- `aSet` leaves the key list unchanged when the key is present, and
appends it otherwise. -/
theorem keys_aSet (l : List (String × ℤ)) (k : String) (v : ℤ) :
    (aSet l k v).map Prod.fst =
      (if aMem l k then l.map Prod.fst else l.map Prod.fst ++ [k]) := by
  induction l with
  | nil => simp [aSet, aMem]
  | cons p rest ih =>
    obtain ⟨k1, v1⟩ := p
    rw [aSet]
    by_cases h : k1 = k
    · rw [if_pos h]
      have hm : aMem ((k1, v1) :: rest) k = true := by
        unfold aMem
        rw [List.find?]
        simp [h]
      rw [hm]
      simp [h]
    · rw [if_neg h]
      have hm : aMem ((k1, v1) :: rest) k = aMem rest k := by
        unfold aMem
        rw [List.find?]
        simp [h]
      rw [List.map_cons, ih, hm, List.map_cons]
      by_cases hr : aMem rest k
      · rw [if_pos hr, if_pos hr]
      · rw [if_neg hr, if_neg hr]
        simp

/-- Key nodup-ness is preserved by `aSet`. -/
theorem nodup_keys_aSet (l : List (String × ℤ)) (k : String) (v : ℤ)
    (h : (l.map Prod.fst).Nodup) : ((aSet l k v).map Prod.fst).Nodup := by
  rw [keys_aSet]
  by_cases hm : aMem l k
  · rw [if_pos hm]; exact h
  · rw [if_neg hm]
    have hnk : k ∉ l.map Prod.fst := by
      intro hk
      apply hm
      obtain ⟨p, hp, hpk⟩ := List.mem_map.mp hk
      unfold aMem
      rw [List.find?_isSome]
      exact ⟨p, hp, by simp [hpk]⟩
    simp [List.nodup_append, h, hnk]

theorem aMem_cons (k1 : String) (v1 : ℤ) (rest : List (String × ℤ))
    (k : String) :
    aMem ((k1, v1) :: rest) k = (if k1 = k then true else aMem rest k) := by
  unfold aMem
  rw [List.find?]
  by_cases h : k1 = k
  · simp [h]
  · simp [h]

/-- Writing back the value already stored under a present key is the
identity. -/
theorem aSet_self (l : List (String × ℤ)) (k : String)
    (h : aMem l k = true) : aSet l k (aGet l k) = l := by
  induction l with
  | nil => simp [aMem, List.find?] at h
  | cons p rest ih =>
    obtain ⟨k1, v1⟩ := p
    rw [aSet]
    by_cases hk : k1 = k
    · rw [if_pos hk, aGet_cons, if_pos hk]
      rw [hk]
    · rw [if_neg hk, aGet_cons, if_neg hk]
      rw [aMem_cons, if_neg hk] at h
      rw [ih h]

theorem aSet_aSet (l : List (String × ℤ)) (k : String) (v w : ℤ) :
    aSet (aSet l k v) k w = aSet l k w := by
  induction l with
  | nil => simp [aSet]
  | cons p rest ih =>
    obtain ⟨k1, v1⟩ := p
    rw [aSet]
    by_cases hk : k1 = k
    · rw [if_pos hk, aSet, if_pos rfl, aSet, if_pos hk]
    · rw [if_neg hk, aSet, if_neg hk, ih, aSet, if_neg hk]

/-- The drain loop does not change the key list. -/
theorem keys_drain (rem : ℤ) (l : List (String × ℤ)) :
    (drainAssignments l rem).map Prod.fst = l.map Prod.fst := by
  induction l generalizing rem with
  | nil => rfl
  | cons p rest ih =>
    obtain ⟨k, a⟩ := p
    rw [drainAssignments]
    by_cases hk : k = "idle"
    · rw [if_pos hk]
      simp [ih]
    · rw [if_neg hk]
      by_cases ha : 0 < a
      · rw [if_pos ha]
        by_cases hr : rem ≤ a
        · rw [if_pos hr]
          simp
        · rw [if_neg hr]
          simp [ih]
      · rw [if_neg ha]
        simp [ih]

/-- The drain loop removes exactly the requested remainder when the
positive non-idle entries can cover it. -/
theorem aSum_drain (l : List (String × ℤ)) (rem : ℤ) (hr : 0 < rem)
    (hcov : rem ≤ posSum l) :
    aSum (drainAssignments l rem) = aSum l - rem := by
  induction l generalizing rem with
  | nil =>
    exfalso
    have : posSum [] = 0 := rfl
    omega
  | cons p rest ih =>
    obtain ⟨k, a⟩ := p
    rw [drainAssignments]
    by_cases hk : k = "idle"
    · rw [if_pos hk]
      have hps : posSum ((k, a) :: rest) = posSum rest := by
        rw [posSum]
        simp [hk]
      rw [aSum_cons, aSum_cons, ih rem hr (hps ▸ hcov)]
      ring
    · rw [if_neg hk]
      by_cases ha : 0 < a
      · rw [if_pos ha]
        by_cases hcover : rem ≤ a
        · rw [if_pos hcover, aSum_cons, aSum_cons]
          ring
        · rw [if_neg hcover]
          have hps : posSum ((k, a) :: rest) = a + posSum rest := by
            rw [posSum]
            simp [hk, ha]
          rw [aSum_cons, aSum_cons, ih (rem - a) (by omega) (by omega)]
          ring
      · rw [if_neg ha]
        have hps : posSum ((k, a) :: rest) = posSum rest := by
          rw [posSum]
          simp [ha]
        rw [aSum_cons, aSum_cons, ih rem hr (hps ▸ hcov)]
        ring

/-- Every assignment sum is bounded by its drainable part plus its idle
part. -/
theorem aSum_le_pos_add_idle (l : List (String × ℤ)) :
    aSum l ≤ posSum l + idleSum l := by
  induction l with
  | nil => simp [aSum_nil, posSum, idleSum]
  | cons p rest ih =>
    obtain ⟨k, a⟩ := p
    rw [aSum_cons, posSum, idleSum]
    by_cases hk : k = "idle"
    · simp only [hk]
      simp
      omega
    · by_cases ha : 0 < a
      · have h1 : (if k ≠ "idle" ∧ 0 < a then a else 0) = a := by
          simp [hk, ha]
        have h2 : (if k = "idle" then a else 0) = 0 := by simp [hk]
        omega
      · have h1 : (if k ≠ "idle" ∧ 0 < a then a else 0) = 0 := by
          simp [ha]
        have h2 : (if k = "idle" then a else 0) = 0 := by simp [hk]
        omega

theorem idleSum_eq_zero (l : List (String × ℤ))
    (h : ∀ p ∈ l, p.1 ≠ "idle") : idleSum l = 0 := by
  induction l with
  | nil => rfl
  | cons p rest ih =>
    obtain ⟨k, a⟩ := p
    rw [idleSum]
    have hk : k ≠ "idle" := h (k, a) (List.mem_cons_self _ _)
    rw [if_neg hk, ih (fun p hp => h p (List.mem_cons_of_mem _ hp))]
    omega

/-- After zeroing the idle bucket of a nodup-keyed map, the idle part of
the sum vanishes. -/
theorem idleSum_aSet_zero (l : List (String × ℤ))
    (h : (l.map Prod.fst).Nodup) : idleSum (aSet l "idle" 0) = 0 := by
  induction l with
  | nil => simp [aSet, idleSum]
  | cons p rest ih =>
    obtain ⟨k, a⟩ := p
    rw [aSet]
    by_cases hk : k = "idle"
    · rw [if_pos hk, idleSum, if_pos rfl]
      have hnotin : "idle" ∉ rest.map Prod.fst := by
        rw [List.map_cons] at h
        have := List.nodup_cons.mp h
        exact hk ▸ this.1
      have : idleSum rest = 0 := by
        apply idleSum_eq_zero
        intro p hp hpk
        exact hnotin (hpk ▸ List.mem_map_of_mem Prod.fst hp)
      omega
    · rw [if_neg hk, idleSum, if_neg hk]
      rw [List.map_cons] at h
      rw [ih (List.nodup_cons.mp h).2]
      omega

/-- `removeVillagers` preserves key-nodupness and the assignment-sum
invariant whenever the removal is within the population. -/
theorem removeVillagers_inv (v : VillagerType) (count : ℤ)
    (h1 : (v.Assignment.map Prod.fst).Nodup)
    (h2 : aSum v.Assignment = v.Count) (hc : count ≤ v.Count) :
    ((removeVillagers v count).Assignment.map Prod.fst).Nodup ∧
    aSum (removeVillagers v count).Assignment =
      (removeVillagers v count).Count := by
  unfold removeVillagers
  set idleCount := aGet v.Assignment "idle" with hidef
  by_cases hidle : count ≤ idleCount
  · rw [if_pos hidle]
    refine ⟨nodup_keys_aSet _ _ _ h1, ?_⟩
    rw [aSum_aAdd, h2]
    ring
  · rw [if_neg hidle]
    have hlt : idleCount < count := not_le.mp hidle
    set l0 := aSet v.Assignment "idle" 0 with hl0
    have hnodup0 : (l0.map Prod.fst).Nodup := nodup_keys_aSet _ _ _ h1
    have hsum0 : aSum l0 = v.Count - idleCount := by
      rw [hl0, aSum_aSet, h2, ← hidef]
      ring
    have hidle0 : idleSum l0 = 0 := idleSum_aSet_zero _ h1
    have hcov : count - idleCount ≤ posSum l0 := by
      have := aSum_le_pos_add_idle l0
      omega
    refine ⟨?_, ?_⟩
    · rw [keys_drain]
      exact hnodup0
    · rw [aSum_drain l0 (count - idleCount) (by omega) hcov, hsum0]
      ring

/-- `vset` with an invariant-satisfying type preserves `WFInv`. -/
theorem wfInv_vset (vm : VillagerManager) (t : String) (v : VillagerType)
    (h : WFInv vm)
    (hv : (v.Assignment.map Prod.fst).Nodup ∧ aSum v.Assignment = v.Count) :
    WFInv (vset vm t v) := by
  intro t2 v2 h2
  have h3 : (if t2 = t then some v else vm.villagers t2) = some v2 := h2
  by_cases ht2 : t2 = t
  · rw [if_pos ht2] at h3
    obtain rfl : v = v2 := Option.some.inj h3
    exact hv
  · rw [if_neg ht2] at h3
    exact h t2 v2 h3

/-- Replacing a type by the value already stored is the identity. -/
theorem vset_self (vm : VillagerManager) (t : String) (v : VillagerType)
    (h : vm.villagers t = some v) : vset vm t v = vm := by
  obtain ⟨f⟩ := vm
  unfold vset
  congr 1
  funext s
  by_cases hs : s = t
  · subst hs
    rw [if_pos rfl]
    exact h.symm
  · rw [if_neg hs]

/-- `Add` preserves the workforce invariant. -/
theorem wfInv_Add (vm : VillagerManager) (t : String) (c : ℤ)
    (h : WFInv vm) : WFInv (vm.Add t c).2 := by
  unfold VillagerManager.Add
  split
  next v hv =>
    refine wfInv_vset _ _ _ h ⟨?_, ?_⟩
    · exact nodup_keys_aSet _ _ _ (h t v hv).1
    · rw [aSum_aAdd, (h t v hv).2]
  next => exact h

/-- `Remove` preserves the workforce invariant (on success and failure). -/
theorem wfInv_Remove (vm : VillagerManager) (t : String) (c : ℤ)
    (h : WFInv vm) : WFInv (vm.Remove t c).2 := by
  unfold VillagerManager.Remove
  split
  next v hv =>
    split
    next hc =>
      exact wfInv_vset _ _ _ h
        (removeVillagers_inv v c (h t v hv).1 (h t v hv).2 hc)
    next => exact h
  next => exact h

/-- `Assign` preserves the workforce invariant. -/
theorem wfInv_Assign (vm : VillagerManager) (t r : String) (c : ℤ)
    (h : WFInv vm) : WFInv (vm.Assign t r c).2 := by
  unfold VillagerManager.Assign
  split
  next v hv =>
    split
    next =>
      split
      next => exact h
      next =>
        refine wfInv_vset _ _ _ h ⟨?_, ?_⟩
        · exact nodup_keys_aSet _ _ _ (nodup_keys_aSet _ _ _ (h t v hv).1)
        · rw [aSum_aAdd, aSum_aAdd, (h t v hv).2]
          ring
    next => exact h
  next => exact h

/-- `Unassign` preserves the workforce invariant. -/
theorem wfInv_Unassign (vm : VillagerManager) (t r : String) (c : ℤ)
    (h : WFInv vm) : WFInv (vm.Unassign t r c).2 := by
  unfold VillagerManager.Unassign
  split
  next v hv =>
    split
    next =>
      split
      next => exact h
      next =>
        refine wfInv_vset _ _ _ h ⟨?_, ?_⟩
        · exact nodup_keys_aSet _ _ _ (nodup_keys_aSet _ _ _ (h t v hv).1)
        · rw [aSum_aAdd, aSum_aAdd, (h t v hv).2]
          ring
    next => exact h
  next => exact h

/-- The fresh villager manager satisfies the workforce invariant. -/
theorem wfInv_new : WFInv NewVillagerManager := by
  intro t v h
  simp only [NewVillagerManager, mOfList, mset] at h
  split_ifs at h <;>
    first
      | (obtain rfl := Option.some.inj h; exact ⟨by decide, by decide⟩)
      | exact absurd h (by simp)

/-! ## Claims -/

/-- C1 (amended): for every resource name and every sequence of ledger
`Add`/`Remove` calls whose `Add` amounts are non-negative, no stock is
ever negative (`Add` with a negative amount can produce a negative
stock, so the original "arbitrary real amounts" fails); and a `Remove`
whose amount exceeds the available stock (`Has` is false) returns false
and mutates nothing. -/
theorem C1_ledger_nonneg (rm : ResourceManager) (r : String) (amount : ℚ)
    (hnn : NonNeg rm) :
    (0 ≤ amount → NonNeg (rm.Add r amount).2) ∧
    NonNeg (rm.Remove r amount).2 ∧
    (rm.Has r amount = false → rm.Remove r amount = (false, rm)) :=
  ⟨fun ha => add_nonneg_pres rm r amount ha hnn,
   remove_nonneg_pres rm r amount hnn,
   fun h => remove_of_has_false rm r amount h⟩

/-- C1 witness: the amended invariant instantiated on the fresh ledger
with amount 5 on "wood" (whose stock is 0, so the remove is rejected). -/
theorem C1_ledger_nonneg_witness :
    NonNeg NewResourceManager ∧ (0:ℚ) ≤ 5 ∧
    NonNeg ((NewResourceManager.Add "wood" 5).2) ∧
    NonNeg ((NewResourceManager.Remove "wood" 5).2) ∧
    NewResourceManager.Remove "wood" 5 = (false, NewResourceManager) := by
  have h5 : (0:ℚ) ≤ 5 := by norm_num
  have hhas : NewResourceManager.Has "wood" 5 = false := by
    simp +decide [NewResourceManager, ResourceManager.Has, mset, mOfList]
  exact ⟨nonNeg_new, h5,
    (C1_ledger_nonneg NewResourceManager "wood" 5 nonNeg_new).1 h5,
    (C1_ledger_nonneg NewResourceManager "wood" 5 nonNeg_new).2.1,
    (C1_ledger_nonneg NewResourceManager "wood" 5 nonNeg_new).2.2 hhas⟩

/-- C1 counterexample: the claim as stated (arbitrary real amounts)
fails — `Add("wood", -1)` on the fresh ledger succeeds and leaves the
"wood" stock observed negative. -/
theorem C1_negative_add_counterexample :
    (NewResourceManager.Add "wood" (-1)).1 = true ∧
    (NewResourceManager.Add "wood" (-1)).2.Get "wood" < 0 := by
  constructor
  · simp +decide [NewResourceManager, ResourceManager.Add, mset, mOfList]
  · have : (NewResourceManager.Add "wood" (-1)).2.Get "wood" = -1 := by
      simp +decide [NewResourceManager, ResourceManager.Add,
        ResourceManager.Get, lookup0, mset, mOfList]
    rw [this]
    norm_num

/-- C2: for every amount `x` with `0 < x ≤ total food`,
`Remove("food", x)` succeeds, drains each positive food source by its
proportional share `x * (source / total)` (clamping a near-zero
remainder to exactly zero), and decreases the food-source sum by
exactly `x` up to the clamp tolerance (strictly less than `0.00001`
per source). -/
theorem C2_proportional_food_removal (rm : ResourceManager) (x : ℚ)
    (hfs : rm.foodSources = ["foraging", "hunting"])
    (hnn : NonNeg rm) (hx : 0 < x) (hxt : x ≤ rm.GetTotalFood) :
    (rm.Remove "food" x).1 = true ∧
    (rm.Remove "food" x).2.Get "foraging" =
      (if 0 < rm.Get "foraging" then
        clampQ (rm.Get "foraging" - x * (rm.Get "foraging" / rm.GetTotalFood))
      else rm.Get "foraging") ∧
    (rm.Remove "food" x).2.Get "hunting" =
      (if 0 < rm.Get "hunting" then
        clampQ (rm.Get "hunting" - x * (rm.Get "hunting" / rm.GetTotalFood))
      else rm.Get "hunting") ∧
    x ≤ rm.GetTotalFood - (rm.Remove "food" x).2.GetTotalFood ∧
    rm.GetTotalFood - (rm.Remove "food" x).2.GetTotalFood <
      x + 2 * (1/100000) ∧
    (∀ s, s ≠ "foraging" → s ≠ "hunting" →
      (rm.Remove "food" x).2.resources s = rm.resources s) := by
  have hrw : rm.Remove "food" x = rm.RemoveFood x := by
    unfold ResourceManager.Remove
    rw [if_pos rfl]
  have htot : rm.GetTotalFood =
      lookup0 rm.resources "foraging" + lookup0 rm.resources "hunting" :=
    getTotalFood_two rm hfs
  have hxt2 : x ≤ lookup0 rm.resources "foraging" +
      lookup0 rm.resources "hunting" := htot ▸ hxt
  obtain ⟨h1, h2, h3, h4, -, -⟩ := removeFood_spec rm x hfs hx hxt2
  have hbounds := removeFood_total_bounds rm x hfs
    (nonNeg_lookup0 hnn "foraging") (nonNeg_lookup0 hnn "hunting") hx hxt2
  rw [htot] at hbounds
  rw [hrw, htot]
  exact ⟨h1, h2, h3, hbounds.1, hbounds.2, h4⟩

/-- C2 witness: the spec's scenario — total food 22 (foraging 20,
hunting 2), removing 5 succeeds and decreases the total by at least 5. -/
theorem C2_proportional_food_removal_witness :
    rmExample22.foodSources = ["foraging", "hunting"] ∧
    NonNeg rmExample22 ∧ (0:ℚ) < 5 ∧ (5:ℚ) ≤ rmExample22.GetTotalFood ∧
    (rmExample22.Remove "food" 5).1 = true ∧
    5 ≤ rmExample22.GetTotalFood -
      (rmExample22.Remove "food" 5).2.GetTotalFood := by
  have hfs : rmExample22.foodSources = ["foraging", "hunting"] := rfl
  have hnn : NonNeg rmExample22 :=
    add_nonneg_pres _ "hunting" 2 (by norm_num)
      (add_nonneg_pres _ "foraging" 20 (by norm_num) nonNeg_new)
  have h22 : rmExample22.GetTotalFood = 22 := by
    simp +decide [rmExample22, NewResourceManager, ResourceManager.Add,
      ResourceManager.GetTotalFood, lookup0, mset, mOfList]
    norm_num
  have hle : (5:ℚ) ≤ rmExample22.GetTotalFood := by
    rw [h22]
    norm_num
  have happ := C2_proportional_food_removal rmExample22 5 hfs hnn
    (by norm_num) hle
  exact ⟨hfs, hnn, by norm_num, hle, happ.1, happ.2.2.2.1⟩

/-- C3 (amended): a food removal requesting more than the total
available food is rejected — `Remove("food", x)` returns false and
mutates nothing, leaving the aggregate pool unchanged (not drained to
zero as the claim states); in particular an upkeep deduction exceeding
available food deducts nothing. -/
theorem C3_overdraw_rejected (rm : ResourceManager) (x : ℚ)
    (h : rm.GetTotalFood < x) :
    rm.Remove "food" x = (false, rm) ∧
    (rm.Remove "food" x).2.GetTotalFood = rm.GetTotalFood := by
  have hrw : rm.Remove "food" x = rm.RemoveFood x := by
    unfold ResourceManager.Remove
    rw [if_pos rfl]
  rw [hrw, removeFood_overdraw rm x h]
  exact ⟨rfl, rfl⟩

/-- C3 witness: a ledger with total food 5 rejects a removal of 10 with
no state change. -/
theorem C3_overdraw_rejected_witness :
    rmExample5.GetTotalFood < 10 ∧
    rmExample5.Remove "food" 10 = (false, rmExample5) := by
  have h5 : rmExample5.GetTotalFood = 5 := by
    simp +decide [rmExample5, NewResourceManager, ResourceManager.Add,
      ResourceManager.GetTotalFood, lookup0, mset, mOfList]
  have hlt : rmExample5.GetTotalFood < 10 := by
    rw [h5]
    norm_num
  exact ⟨hlt, (C3_overdraw_rejected rmExample5 10 hlt).1⟩

/-- C3 counterexample: the claim says an overdraw "still proceeds to
the extent of available food, leaving the aggregate food pool at
exactly zero"; on a pool of 5, removing 10 returns false and leaves the
pool at 5, not 0. -/
theorem C3_overdraw_counterexample :
    (rmExample5.Remove "food" 10).1 = false ∧
    (rmExample5.Remove "food" 10).2.GetTotalFood = 5 := by
  have h5 : rmExample5.GetTotalFood = 5 := by
    simp +decide [rmExample5, NewResourceManager, ResourceManager.Add,
      ResourceManager.GetTotalFood, lookup0, mset, mOfList]
  have hlt : rmExample5.GetTotalFood < 10 := by
    rw [h5]
    norm_num
  have hrw : rmExample5.Remove "food" 10 = (false, rmExample5) := by
    have h1 : rmExample5.Remove "food" 10 = rmExample5.RemoveFood 10 := by
      unfold ResourceManager.Remove
      rw [if_pos rfl]
    rw [h1, removeFood_overdraw rmExample5 10 hlt]
  rw [hrw]
  exact ⟨rfl, h5⟩

/-- C5: for every worker type the conservation invariant — assignment
values (idle bucket included) sum to the population count, over a
duplicate-free task map — holds after every `Add`, `Remove`, `Assign`
and `Unassign` call whenever it held before, whether the call succeeds
or fails. -/
theorem C5_assignment_conservation (vm : VillagerManager) (t r : String)
    (c : ℤ) (h : WFInv vm) :
    WFInv (vm.Add t c).2 ∧ WFInv (vm.Remove t c).2 ∧
    WFInv (vm.Assign t r c).2 ∧ WFInv (vm.Unassign t r c).2 :=
  ⟨wfInv_Add vm t c h, wfInv_Remove vm t c h,
   wfInv_Assign vm t r c h, wfInv_Unassign vm t r c h⟩

/-- C5 witness: conservation on the fresh manager for each operation
with count 1 on the "villager" type and the "wood" task. -/
theorem C5_assignment_conservation_witness :
    WFInv NewVillagerManager ∧
    WFInv (NewVillagerManager.Add "villager" 1).2 ∧
    WFInv (NewVillagerManager.Remove "villager" 1).2 ∧
    WFInv (NewVillagerManager.Assign "villager" "wood" 1).2 ∧
    WFInv (NewVillagerManager.Unassign "villager" "wood" 1).2 :=
  ⟨wfInv_new,
   (C5_assignment_conservation NewVillagerManager "villager" "wood" 1
      wfInv_new).1,
   (C5_assignment_conservation NewVillagerManager "villager" "wood" 1
      wfInv_new).2.1,
   (C5_assignment_conservation NewVillagerManager "villager" "wood" 1
      wfInv_new).2.2.1,
   (C5_assignment_conservation NewVillagerManager "villager" "wood" 1
      wfInv_new).2.2.2⟩

/-- C10: assigning `n` villagers to the reserved "idle" task, for an
existing worker type whose idle bucket holds at least `n`, returns true
and leaves the whole workforce state unchanged (the idle bucket is
incremented and then decremented by `n`). -/
theorem C10_assign_idle_noop (vm : VillagerManager) (t : String) (n : ℤ)
    (v : VillagerType) (hv : vm.villagers t = some v)
    (hm : aMem v.Assignment "idle" = true)
    (hn : n ≤ aGet v.Assignment "idle") :
    vm.Assign t "idle" n = (true, vm) := by
  have hA : aAdd (aAdd v.Assignment "idle" n) "idle" (-n) = v.Assignment := by
    unfold aAdd
    rw [aGet_aSet_same, aSet_aSet]
    have harith : aGet v.Assignment "idle" + n + -n =
        aGet v.Assignment "idle" := by ring
    rw [harith]
    exact aSet_self _ _ hm
  have hnot : ¬ (aGet v.Assignment "idle" < n) := not_lt.mpr hn
  unfold VillagerManager.Assign
  rw [hv]
  show (if aMem v.Assignment "idle" = true then
      if aGet v.Assignment "idle" < n then (false, vm)
      else
        (true, vset vm t
          { Count := v.Count, FoodCost := v.FoodCost,
            Assignment := aAdd (aAdd v.Assignment "idle" n) "idle" (-n) })
    else (false, vm)) = (true, vm)
  rw [hm, if_pos rfl, if_neg hnot, hA]
  exact congrArg (Prod.mk true) (vset_self vm t v hv)

/-- C10 witness: on the fresh manager, assigning 0 villagers of type
"villager" to "idle" succeeds and changes nothing. -/
theorem C10_assign_idle_noop_witness :
    (NewVillagerManager.villagers "villager" = some
      { Count := 0, FoodCost := 1/2,
        Assignment :=
          [("foraging", 0), ("wood", 0), ("stone", 0), ("gold", 0),
           ("knowledge", 0), ("hunting", 0), ("idle", 0)] }) ∧
    NewVillagerManager.Assign "villager" "idle" 0 =
      (true, NewVillagerManager) := by
  have hv : NewVillagerManager.villagers "villager" = some
      { Count := 0, FoodCost := 1/2,
        Assignment :=
          [("foraging", 0), ("wood", 0), ("stone", 0), ("gold", 0),
           ("knowledge", 0), ("hunting", 0), ("idle", 0)] } := rfl
  exact ⟨hv, C10_assign_idle_noop NewVillagerManager "villager" 0 _ hv
    (by decide) (by decide)⟩

/-- `CheckAdvancement` on an age with a known next age and requirement
entry reduces to a test of `reqMet`. -/
theorem checkAdv_spec (pm : ProgressManager) (rm : ResourceManager)
    (bm : BuildingManager) (a next : String) (req : AgeRequirement)
    (h2 : pm.GetNextAge a = next) (h3 : pm.ageRequirements next = some req)
    (h4 : next ≠ "") :
    pm.CheckAdvancement rm bm a = (if reqMet rm bm req then next else a) := by
  unfold ProgressManager.CheckAdvancement
  rw [h2, if_neg h4, h3]

/-- `CheckAdvancement` at the final age returns the current age. -/
theorem checkAdv_final (pm : ProgressManager) (rm : ResourceManager)
    (bm : BuildingManager) (a : String) (h2 : pm.GetNextAge a = "") :
    pm.CheckAdvancement rm bm a = a := by
  unfold ProgressManager.CheckAdvancement
  rw [h2, if_pos rfl]

/-- Full behavior of `CheckAdvancement` on a non-final age: the result
is the current age or the next one, the index never decreases, and the
next age is returned exactly when `reqMet` passes. -/
theorem checkAdv_conclusions (pm : ProgressManager) (rm : ResourceManager)
    (bm : BuildingManager) (a next : String) (req : AgeRequirement)
    (i j : ℕ) (h2 : pm.GetNextAge a = next)
    (h3 : pm.ageRequirements next = some req) (h4 : next ≠ "")
    (h5 : next ∈ pm.ages) (hia : pm.GetCurrentAgeIndex a = i)
    (hin : pm.GetCurrentAgeIndex next = j) (hij : i < j) (hne : next ≠ a) :
    pm.GetCurrentAgeIndex a ≤
      pm.GetCurrentAgeIndex (pm.CheckAdvancement rm bm a) ∧
    (pm.CheckAdvancement rm bm a = a ∨
      (pm.CheckAdvancement rm bm a ∈ pm.ages ∧
       pm.GetCurrentAgeIndex a <
         pm.GetCurrentAgeIndex (pm.CheckAdvancement rm bm a))) ∧
    (pm.CheckAdvancement rm bm a ≠ a →
      pm.CheckAdvancement rm bm a = pm.GetNextAge a) ∧
    (∀ req2, pm.ageRequirements (pm.GetNextAge a) = some req2 →
      (pm.CheckAdvancement rm bm a = pm.GetNextAge a ↔
        reqMet rm bm req2 = true)) := by
  have hspec := checkAdv_spec pm rm bm a next req h2 h3 h4
  by_cases hm : reqMet rm bm req = true
  · have hres : pm.CheckAdvancement rm bm a = next := by
      rw [hspec, if_pos hm]
    refine ⟨?_, ?_, ?_, ?_⟩
    · rw [hres, hia, hin]
      omega
    · right
      rw [hres, hia, hin]
      exact ⟨h5, hij⟩
    · intro
      rw [hres, h2]
    · intro req2 hr2
      rw [h2] at hr2
      rw [h3] at hr2
      obtain rfl : req = req2 := Option.some.inj hr2
      rw [hres, h2]
      simp [hm]
  · have hres : pm.CheckAdvancement rm bm a = a := by
      rw [hspec, if_neg hm]
    refine ⟨?_, ?_, ?_, ?_⟩
    · rw [hres]
    · left
      exact hres
    · intro hcon
      exact absurd hres hcon
    · intro req2 hr2
      rw [h2] at hr2
      rw [h3] at hr2
      obtain rfl : req = req2 := Option.some.inj hr2
      rw [hres, h2]
      constructor
      · intro heq
        exact absurd heq.symm hne
      · intro hmm
        exact absurd hmm hm

/-- C6: for every ledger, building registry and current age in the age
ladder, `CheckAdvancement` returns the current age or the immediately
next age (a strictly later entry of the ordered list); the age index
never decreases (so repeated calls never regress); and the next age is
returned exactly when its requirement check (every resource threshold
read via `Get` and every building-count threshold) passes. The
embedding is a pure function: no state is mutated. -/
theorem C6_check_advancement (rm : ResourceManager) (bm : BuildingManager)
    (a : String) (ha : a ∈ NewProgressManager.ages) :
    NewProgressManager.GetCurrentAgeIndex a ≤
      NewProgressManager.GetCurrentAgeIndex
        (NewProgressManager.CheckAdvancement rm bm a) ∧
    (NewProgressManager.CheckAdvancement rm bm a = a ∨
      (NewProgressManager.CheckAdvancement rm bm a ∈ NewProgressManager.ages ∧
       NewProgressManager.GetCurrentAgeIndex a <
         NewProgressManager.GetCurrentAgeIndex
           (NewProgressManager.CheckAdvancement rm bm a))) ∧
    (NewProgressManager.CheckAdvancement rm bm a ≠ a →
      NewProgressManager.CheckAdvancement rm bm a =
        NewProgressManager.GetNextAge a) ∧
    (∀ req, NewProgressManager.ageRequirements
        (NewProgressManager.GetNextAge a) = some req →
      (NewProgressManager.CheckAdvancement rm bm a =
          NewProgressManager.GetNextAge a ↔ reqMet rm bm req = true)) := by
  have hages : NewProgressManager.ages =
      ["Stone Age", "Bronze Age", "Iron Age", "Medieval Age",
       "Renaissance Age", "Industrial Age", "Modern Age"] := rfl
  rw [hages] at ha
  simp only [List.mem_cons, List.not_mem_nil, or_false] at ha
  rcases ha with rfl | rfl | rfl | rfl | rfl | rfl | rfl
  · exact checkAdv_conclusions NewProgressManager rm bm
      "Stone Age" "Bronze Age"
      ⟨[("stone", 50), ("food", 100)], [("hut", 3), ("farm", 2)]⟩ 0 1
      rfl rfl (by decide) (by decide) rfl rfl (by decide) (by decide)
  · exact checkAdv_conclusions NewProgressManager rm bm
      "Bronze Age" "Iron Age"
      ⟨[("stone", 100), ("wood", 150), ("knowledge", 20)],
       [("mine", 2), ("lumber_mill", 2)]⟩ 1 2
      rfl rfl (by decide) (by decide) rfl rfl (by decide) (by decide)
  · exact checkAdv_conclusions NewProgressManager rm bm
      "Iron Age" "Medieval Age"
      ⟨[("stone", 200), ("wood", 250), ("gold", 50), ("knowledge", 50)],
       [("market", 1), ("library", 1)]⟩ 2 3
      rfl rfl (by decide) (by decide) rfl rfl (by decide) (by decide)
  · exact checkAdv_conclusions NewProgressManager rm bm
      "Medieval Age" "Renaissance Age"
      ⟨[("gold", 150), ("knowledge", 100)], [("library", 3), ("market", 2)]⟩ 3 4
      rfl rfl (by decide) (by decide) rfl rfl (by decide) (by decide)
  · exact checkAdv_conclusions NewProgressManager rm bm
      "Renaissance Age" "Industrial Age"
      ⟨[("gold", 300), ("knowledge", 200)], [("library", 5), ("market", 4)]⟩ 4 5
      rfl rfl (by decide) (by decide) rfl rfl (by decide) (by decide)
  · exact checkAdv_conclusions NewProgressManager rm bm
      "Industrial Age" "Modern Age"
      ⟨[("gold", 500), ("knowledge", 400)], [("library", 8), ("market", 6)]⟩ 5 6
      rfl rfl (by decide) (by decide) rfl rfl (by decide) (by decide)
  · have hres : NewProgressManager.CheckAdvancement rm bm "Modern Age" =
        "Modern Age" := checkAdv_final NewProgressManager rm bm "Modern Age" rfl
    refine ⟨by rw [hres], Or.inl hres, fun hcon => absurd hres hcon, ?_⟩
    intro req2 hr2
    have hnone : NewProgressManager.ageRequirements
        (NewProgressManager.GetNextAge "Modern Age") = none := rfl
    rw [hnone] at hr2
    cases hr2

/-- C6 witness: instantiated at the fresh ledger and registry in the
Stone Age (no thresholds met, so the age is unchanged). -/
theorem C6_check_advancement_witness :
    "Stone Age" ∈ NewProgressManager.ages ∧
    NewProgressManager.GetCurrentAgeIndex "Stone Age" ≤
      NewProgressManager.GetCurrentAgeIndex
        (NewProgressManager.CheckAdvancement NewResourceManager
          NewBuildingManager "Stone Age") ∧
    (NewProgressManager.CheckAdvancement NewResourceManager
        NewBuildingManager "Stone Age" = "Stone Age" ∨
      (NewProgressManager.CheckAdvancement NewResourceManager
          NewBuildingManager "Stone Age" ∈ NewProgressManager.ages ∧
       NewProgressManager.GetCurrentAgeIndex "Stone Age" <
         NewProgressManager.GetCurrentAgeIndex
           (NewProgressManager.CheckAdvancement NewResourceManager
             NewBuildingManager "Stone Age"))) := by
  have hmem : "Stone Age" ∈ NewProgressManager.ages := by decide
  have happ := C6_check_advancement NewResourceManager NewBuildingManager
    "Stone Age" hmem
  exact ⟨hmem, happ.1, happ.2.1⟩

/-- `StartResearch` on an already-researched technology fails with no
state change. -/
theorem startResearch_researched (rm : ResearchManager) (c : String)
    (q : ℚ) (t : Technology) (ht : rm.technologies c = some t)
    (hr : rm.researchedTechs c = true) :
    rm.StartResearch c q = (false, rm) := by
  unfold ResearchManager.StartResearch
  simp only [ht, hr]
  simp

/-- C7: with a technology in progress, `ContinueResearch` reports
completion exactly when the accumulated progress (carry-over plus all
added points) reaches the cost; on completion it marks the technology
permanently researched, clears the slot, and the technology can no
longer be started; otherwise it accumulates the points and keeps the
slot. -/
theorem C7_research_completion (rm : ResearchManager) (pts : ℚ)
    (c : String) (t : Technology) (hc : rm.currentResearch = c)
    (hne : c ≠ "") (ht : rm.technologies c = some t) :
    ((rm.ContinueResearch pts).1.2 = true ↔
      t.Cost ≤ rm.researchProgress + pts) ∧
    (rm.ContinueResearch pts).2.technologies = rm.technologies ∧
    (t.Cost ≤ rm.researchProgress + pts →
      (rm.ContinueResearch pts).1 = (c, true) ∧
      (rm.ContinueResearch pts).2.researchedTechs c = true ∧
      (rm.ContinueResearch pts).2.currentResearch = "" ∧
      ∀ q, (rm.ContinueResearch pts).2.StartResearch c q =
        (false, (rm.ContinueResearch pts).2)) ∧
    (¬ t.Cost ≤ rm.researchProgress + pts →
      (rm.ContinueResearch pts).1 = ("", false) ∧
      (rm.ContinueResearch pts).2.researchProgress =
        rm.researchProgress + pts ∧
      (rm.ContinueResearch pts).2.currentResearch = c ∧
      (rm.ContinueResearch pts).2.researchedTechs = rm.researchedTechs) := by
  have hnc : ¬ (rm.currentResearch = "") := by
    rw [hc]
    exact hne
  by_cases hcost : t.Cost ≤ rm.researchProgress + pts
  · have hcr : rm.ContinueResearch pts =
        ((c, true),
         { rm with
            researchedTechs :=
              fun s => if s = c then true else rm.researchedTechs s,
            currentResearch := "",
            researchProgress := 0 }) := by
      unfold ResearchManager.ContinueResearch
      rw [if_neg hnc, hc, ht]
      simp only [Option.getD_some]
      rw [if_pos hcost]
    have hdone : (rm.ContinueResearch pts).2.researchedTechs c = true := by
      rw [hcr]
      simp
    have ht2 : (rm.ContinueResearch pts).2.technologies c = some t := by
      rw [hcr]
      exact ht
    refine ⟨by rw [hcr]; simp [hcost], by rw [hcr], ?_, fun hno => absurd hcost hno⟩
    intro
    refine ⟨by rw [hcr], hdone, by rw [hcr], ?_⟩
    intro q
    exact startResearch_researched _ c q t ht2 hdone
  · have hcr : rm.ContinueResearch pts =
        (("", false),
         { rm with researchProgress := rm.researchProgress + pts }) := by
      unfold ResearchManager.ContinueResearch
      rw [if_neg hnc, hc, ht]
      simp only [Option.getD_some]
      rw [if_neg hcost]
    refine ⟨by rw [hcr]; simp [hcost], by rw [hcr], fun hyes => absurd hyes hcost, ?_⟩
    intro
    exact ⟨by rw [hcr], by rw [hcr], by rw [hcr]; exact hc, by rw [hcr]⟩

/-- C7 witness: the spec's scenario — "writing" (cost 40) started with
carry-over 0; the first `ContinueResearch(25)` reports no completion
and leaves progress 25, the second reports completion, clears the
slot, marks it researched, and restart fails. -/
theorem C7_research_completion_witness :
    researchWriting0.currentResearch = "writing" ∧
    (researchWriting0.ContinueResearch 25).1 = ("", false) ∧
    researchWriting25.researchProgress = 25 ∧
    researchWriting25.currentResearch = "writing" ∧
    (researchWriting25.ContinueResearch 25).1 = ("writing", true) ∧
    (researchWriting25.ContinueResearch 25).2.currentResearch = "" ∧
    (researchWriting25.ContinueResearch 25).2.researchedTechs "writing" =
      true ∧
    (researchWriting25.ContinueResearch 25).2.StartResearch "writing" 0 =
      (false, (researchWriting25.ContinueResearch 25).2) := by
  have hc0 : researchWriting0.currentResearch = "writing" := rfl
  have ht0 : researchWriting0.technologies "writing" = some
      { Name := "Writing",
        Description := "Develop a writing system to record knowledge",
        Age := "Bronze Age", Cost := 40, Prerequisites := [] } := rfl
  have hp0 : researchWriting0.researchProgress = 0 := rfl
  have happ0 := C7_research_completion researchWriting0 25 "writing" _
    hc0 (by decide) ht0
  have hno : ¬ (40 : ℚ) ≤ researchWriting0.researchProgress + 25 := by
    rw [hp0]
    norm_num
  obtain ⟨-, htech0, -, hinc⟩ := happ0
  obtain ⟨hfst0, hprog0, hcur0, -⟩ := hinc hno
  have hprog25 : researchWriting25.researchProgress = 25 := by
    show (researchWriting0.ContinueResearch 25).2.researchProgress = 25
    rw [hprog0, hp0]
    norm_num
  have ht25 : researchWriting25.technologies "writing" = some
      { Name := "Writing",
        Description := "Develop a writing system to record knowledge",
        Age := "Bronze Age", Cost := 40, Prerequisites := [] } := by
    show (researchWriting0.ContinueResearch 25).2.technologies "writing" = _
    rw [htech0]
    exact ht0
  have happ25 := C7_research_completion researchWriting25 25 "writing" _
    hcur0 (by decide) ht25
  have hyes : (40 : ℚ) ≤ researchWriting25.researchProgress + 25 := by
    rw [hprog25]
    norm_num
  obtain ⟨-, -, hcomp, -⟩ := happ25
  obtain ⟨hfst, hrsrch, hcur, hstart⟩ := hcomp hyes
  exact ⟨hc0, hfst0, hprog25, hcur0, hfst, hcur, hrsrch, hstart 0⟩

/-- C8 (amended): `StartResearch` fails — returning false with no state
change — exactly when the technology is unknown, already researched, or
has an unmet prerequisite; it performs no check of the in-progress
slot, so on success it overwrites `currentResearch` unconditionally
(an in-progress research is silently replaced; the "already
researching" guard lives in the command layer, not here). -/
theorem C8_start_research_conditions (rm : ResearchManager) (c : String)
    (q : ℚ) :
    ((rm.StartResearch c q).1 = false →
      rm.StartResearch c q = (false, rm)) ∧
    ((rm.StartResearch c q).1 = true ↔
      ∃ t, rm.technologies c = some t ∧ rm.researchedTechs c = false ∧
        ∀ p ∈ t.Prerequisites, rm.researchedTechs p = true) ∧
    ((rm.StartResearch c q).1 = true →
      (rm.StartResearch c q).2 =
        { rm with currentResearch := c, researchProgress := q }) := by
  unfold ResearchManager.StartResearch
  split
  next hv =>
    refine ⟨fun _ => rfl, ?_, ?_⟩
    · simp only [show ((false, rm) : Bool × ResearchManager).1 = false
        from rfl]
      constructor
      · intro habs
        cases habs
      · rintro ⟨t, hvt, -, -⟩
        rw [hv] at hvt
        cases hvt
    · intro habs
      cases habs
  next t hv =>
    split_ifs with h1 h2
    · refine ⟨fun _ => rfl, ?_, ?_⟩
      · constructor
        · intro habs
          cases habs
        · rintro ⟨t2, hvt, hr, -⟩
          rw [hv] at hvt
          rw [h1] at hr
          cases hr
      · intro habs
        cases habs
    · refine ⟨fun _ => rfl, ?_, ?_⟩
      · constructor
        · intro habs
          cases habs
        · rintro ⟨t2, hvt, -, hall⟩
          obtain rfl : t = t2 := Option.some.inj (hv ▸ hvt)
          obtain ⟨p, hp, hnp⟩ := List.any_eq_true.mp h2
          have := hall p hp
          rw [this] at hnp
          cases hnp
      · intro habs
        cases habs
    · refine ⟨?_, ?_, fun _ => rfl⟩
      · intro habs
        cases habs
      · constructor
        · intro
          refine ⟨t, hv, ?_, ?_⟩
          · exact Bool.not_eq_true _ ▸ (Bool.of_not_eq_true h1)
          · intro p hp
            have hanyf : (t.Prerequisites.any
                fun p => !rm.researchedTechs p) = false := by
              exact Bool.of_not_eq_true h2
            have := List.any_eq_false.mp hanyf p hp
            simpa using this
        · intro
          rfl

/-- C8 counterexample: the claim says `StartResearch` fails when
another technology is already in progress; with "agriculture" in
progress, `StartResearch("toolmaking", 0)` returns true and silently
replaces the in-progress slot. -/
theorem C8_inprogress_replaced_counterexample :
    researchAgri.currentResearch = "agriculture" ∧
    (researchAgri.StartResearch "toolmaking" 0).1 = true ∧
    (researchAgri.StartResearch "toolmaking" 0).2.currentResearch =
      "toolmaking" := ⟨rfl, rfl, rfl⟩

/-- C9 (code bug): `Add`/`Has`/`Remove` special-case "food", but `Get`
does not — after `Add("food", 150)` (credited to foraging, total food
150), `Has("food", 100)` and `Remove("food", 100)` succeed while
`Get("food")` reads the absent "food" key and returns 0; consequently
the age-advancement check, which reads the Bronze Age food threshold
via `Get`, still fails on a ledger with 1000 total food, 1000 stone,
3 huts and 2 farms, leaving the age at "Stone Age" — the Bronze Age
food requirement can never be met. -/
theorem C9_get_food_not_special :
    rmFood150.Get "foraging" = 150 ∧
    rmFood150.GetTotalFood = 150 ∧
    rmFood150.Has "food" 100 = true ∧
    (rmFood150.Remove "food" 100).1 = true ∧
    rmFood150.Get "food" = 0 ∧
    rmRich.GetTotalFood = 1000 ∧
    rmRich.Get "stone" = 1000 ∧
    bmRich.GetCount "hut" = 3 ∧
    bmRich.GetCount "farm" = 2 ∧
    NewProgressManager.CheckAdvancement rmRich bmRich "Stone Age" =
      "Stone Age" := by
  have hfor : rmFood150.Get "foraging" = 150 := by
    simp +decide [rmFood150, NewResourceManager, ResourceManager.Add,
      ResourceManager.Get, lookup0, mset, mOfList]
  have hhunt : rmFood150.Get "hunting" = 0 := by
    simp +decide [rmFood150, NewResourceManager, ResourceManager.Add,
      ResourceManager.Get, lookup0, mset, mOfList]
  have htot : rmFood150.GetTotalFood = 150 := by
    have := getTotalFood_two rmFood150 rfl
    rw [this]
    have h1 : lookup0 rmFood150.resources "foraging" = 150 := hfor
    have h2 : lookup0 rmFood150.resources "hunting" = 0 := hhunt
    rw [h1, h2]
    norm_num
  have hhas : rmFood150.Has "food" 100 = true := by
    rw [has_food_iff, htot]
    norm_num
  have hrem : (rmFood150.Remove "food" 100).1 = true := by
    have hrw : rmFood150.Remove "food" 100 = rmFood150.RemoveFood 100 := by
      unfold ResourceManager.Remove
      rw [if_pos rfl]
    have hspec := removeFood_spec rmFood150 100 rfl (by norm_num)
      (by rw [show lookup0 rmFood150.resources "foraging" = 150 from hfor,
              show lookup0 rmFood150.resources "hunting" = 0 from hhunt]
          norm_num)
    rw [hrw]
    exact hspec.1
  have hgetfood : rmFood150.Get "food" = 0 := by
    simp +decide [rmFood150, NewResourceManager, ResourceManager.Add,
      ResourceManager.Get, lookup0, mset, mOfList]
  have hrichfood : rmRich.Get "food" = 0 := by
    simp +decide [rmRich, NewResourceManager, ResourceManager.Add,
      ResourceManager.Get, lookup0, mset, mOfList]
  have hrichtot : rmRich.GetTotalFood = 1000 := by
    have := getTotalFood_two rmRich rfl
    rw [this]
    have h1 : lookup0 rmRich.resources "foraging" = 500 := by
      simp +decide [rmRich, NewResourceManager, ResourceManager.Add,
        lookup0, mset, mOfList]
    have h2 : lookup0 rmRich.resources "hunting" = 500 := by
      simp +decide [rmRich, NewResourceManager, ResourceManager.Add,
        lookup0, mset, mOfList]
    rw [h1, h2]
    norm_num
  have hrichstone : rmRich.Get "stone" = 1000 := by
    simp +decide [rmRich, NewResourceManager, ResourceManager.Add,
      ResourceManager.Get, lookup0, mset, mOfList]
  have hhut : bmRich.GetCount "hut" = 3 := by
    simp +decide [bmRich, NewBuildingManager, BuildingManager.Add,
      BuildingManager.GetCount, mset, mOfList]
  have hfarm : bmRich.GetCount "farm" = 2 := by
    simp +decide [bmRich, NewBuildingManager, BuildingManager.Add,
      BuildingManager.GetCount, mset, mOfList]
  have hreq : reqMet rmRich bmRich
      ⟨[("stone", 50), ("food", 100)], [("hut", 3), ("farm", 2)]⟩ = false := by
    simp [reqMet, hrichfood]
  have hcheck : NewProgressManager.CheckAdvancement rmRich bmRich
      "Stone Age" = "Stone Age" := by
    rw [checkAdv_spec NewProgressManager rmRich bmRich "Stone Age"
      "Bronze Age" ⟨[("stone", 50), ("food", 100)], [("hut", 3), ("farm", 2)]⟩
      rfl rfl (by decide), hreq]
    simp
  exact ⟨hfor, htot, hhas, hrem, hgetfood, hrichtot, hrichstone, hhut,
    hfarm, hcheck⟩

/-- `Get` unfolded to the raw map read. -/
theorem get_def (rm : ResourceManager) (s : String) :
    rm.Get s = (rm.resources s).getD 0 := rfl

/-- Folding `Remove` over a list of affordable cost line items with
distinct non-food resource names deducts each item exactly and touches
nothing else. -/
theorem fold_remove_nonfood (items : List (String × ℚ)) :
    ∀ (rm : ResourceManager),
    (items.map Prod.fst).Nodup →
    (∀ item ∈ items, item.1 ≠ "food") →
    (∀ item ∈ items, rm.Has item.1 item.2 = true) →
    (∀ item ∈ items,
      (items.foldl (fun r it => (r.Remove it.1 it.2).2) rm).Get item.1 =
        rm.Get item.1 - item.2) ∧
    (∀ s, (∀ item ∈ items, s ≠ item.1) →
      (items.foldl (fun r it => (r.Remove it.1 it.2).2) rm).resources s =
        rm.resources s) ∧
    (items.foldl (fun r it => (r.Remove it.1 it.2).2) rm).foodSources =
      rm.foodSources ∧
    (items.foldl (fun r it => (r.Remove it.1 it.2).2) rm).collectionRates =
      rm.collectionRates := by
  induction items with
  | nil =>
    intro rm _ _ _
    exact ⟨fun item h => absurd h (List.not_mem_nil item),
      fun s _ => rfl, rfl, rfl⟩
  | cons hd rest ih =>
    intro rm hnd hnf hhas
    obtain ⟨r0, a0⟩ := hd
    have h0 : rm.Has r0 a0 = true := hhas _ (List.mem_cons_self _ _)
    have hr0 : r0 ≠ "food" := hnf _ (List.mem_cons_self _ _)
    obtain ⟨v, hv, hle⟩ := (has_nonfood rm r0 a0 hr0).mp h0
    have hrem := remove_nonfood_eq rm r0 a0 v hr0 hv hle
    have hkeynotin : r0 ∉ rest.map Prod.fst := by
      rw [List.map_cons] at hnd
      exact (List.nodup_cons.mp hnd).1
    have hndrest : (rest.map Prod.fst).Nodup := by
      rw [List.map_cons] at hnd
      exact (List.nodup_cons.mp hnd).2
    have hfold : ((r0, a0) :: rest).foldl
        (fun r it => (r.Remove it.1 it.2).2) rm =
        rest.foldl (fun r it => (r.Remove it.1 it.2).2)
          { rm with resources := mset rm.resources r0 (v - a0) } := by
      rw [List.foldl_cons]
      show rest.foldl (fun r it => (r.Remove it.1 it.2).2)
        (rm.Remove r0 a0).2 = _
      rw [hrem]
    have hhas1 : ∀ item ∈ rest,
        ResourceManager.Has
          { rm with resources := mset rm.resources r0 (v - a0) }
          item.1 item.2 = true := by
      intro item hit
      have hne : item.1 ≠ r0 := by
        intro he
        exact hkeynotin (he ▸ List.mem_map_of_mem Prod.fst hit)
      have hif : item.1 ≠ "food" := hnf _ (List.mem_cons_of_mem _ hit)
      obtain ⟨v2, hv2, hle2⟩ :=
        (has_nonfood rm item.1 item.2 hif).mp (hhas _ (List.mem_cons_of_mem _ hit))
      refine (has_nonfood _ item.1 item.2 hif).mpr ⟨v2, ?_, hle2⟩
      show mset rm.resources r0 (v - a0) item.1 = some v2
      rw [mset_other _ _ _ _ hne]
      exact hv2
    obtain ⟨ih1, ih2, ih3, ih4⟩ := ih _ hndrest
      (fun item h => hnf _ (List.mem_cons_of_mem _ h)) hhas1
    refine ⟨?_, ?_, ?_, ?_⟩
    · intro item hit
      rcases List.mem_cons.mp hit with rfl | hit2
      · rw [hfold]
        dsimp only
        have hr0notrest : ∀ item2 ∈ rest, r0 ≠ item2.1 := by
          intro item2 hit2 he
          exact hkeynotin (he ▸ List.mem_map_of_mem Prod.fst hit2)
        simp only [get_def]
        rw [ih2 r0 hr0notrest]
        show (mset rm.resources r0 (v - a0) r0).getD 0 =
          (rm.resources r0).getD 0 - a0
        rw [mset_same, hv]
        simp
      · rw [hfold, ih1 item hit2]
        have hne : item.1 ≠ r0 := by
          intro he
          exact hkeynotin (he ▸ List.mem_map_of_mem Prod.fst hit2)
        simp only [get_def]
        show (mset rm.resources r0 (v - a0) item.1).getD 0 - item.2 =
          (rm.resources item.1).getD 0 - item.2
        rw [mset_other _ _ _ _ hne]
    · intro s hs
      rw [hfold, ih2 s (fun item h => hs item (List.mem_cons_of_mem _ h))]
      exact mset_other _ _ _ _ (hs (r0, a0) (List.mem_cons_self _ _))
    · rw [hfold]
      exact ih3
    · rw [hfold]
      exact ih4

/-- `Add`ing one building with a present key increments exactly that
count. -/
theorem build_count_facts (bm : BuildingManager) (b : String) (cnt : ℤ)
    (hv : bm.buildings b = some cnt) :
    (bm.Add b 1).2.GetCount b = bm.GetCount b + 1 ∧
    ∀ b2, b2 ≠ b → (bm.Add b 1).2.GetCount b2 = bm.GetCount b2 := by
  have hadd : bm.Add b 1 =
      (true, { bm with buildings := mset bm.buildings b (cnt + 1) }) := by
    unfold BuildingManager.Add
    rw [hv]
  constructor
  · rw [hadd]
    show (mset bm.buildings b (cnt + 1) b).getD 0 = (bm.buildings b).getD 0 + 1
    rw [mset_same, hv]
    rfl
  · intro b2 hb2
    rw [hadd]
    show (mset bm.buildings b (cnt + 1) b2).getD 0 = (bm.buildings b2).getD 0
    rw [mset_other _ _ _ _ hb2]

/-- Characterization of a successful `Build` whose cost list holds only
non-food items with distinct names. -/
theorem build_nonfood_case (bm : BuildingManager) (rm : ResourceManager)
    (b : String) (items : List (String × ℚ)) (cnt : ℤ)
    (hcost : bm.buildingCosts b = some items)
    (hbm : bm.buildings b = some cnt)
    (hkeys : (items.map Prod.fst).Nodup)
    (hnofood : ∀ item ∈ items, item.1 ≠ "food")
    (hcb : bm.CanBuild b rm = true) :
    (bm.Build b rm).1 = true ∧
    (bm.Build b rm).2.1.GetCount b = bm.GetCount b + 1 ∧
    (∀ b2, b2 ≠ b → (bm.Build b rm).2.1.GetCount b2 = bm.GetCount b2) ∧
    (∀ item ∈ items,
      (bm.Build b rm).2.2.Get item.1 = rm.Get item.1 - item.2) ∧
    (∀ s, (∀ item ∈ items, s ≠ item.1) →
      (bm.Build b rm).2.2.resources s = rm.resources s) ∧
    (bm.Build b rm).2.2.foodSources = rm.foodSources := by
  have hbe : bm.Build b rm =
      (true, (bm.Add b 1).2,
        items.foldl (fun r item => (r.Remove item.1 item.2).2) rm) := by
    unfold BuildingManager.Build
    rw [hcb, if_pos rfl, hcost]
  have hall : items.all (fun item => rm.Has item.1 item.2) = true := by
    have h := hcb
    unfold BuildingManager.CanBuild at h
    rw [hcost] at h
    exact h
  have hhas : ∀ item ∈ items, rm.Has item.1 item.2 = true :=
    fun item hit => List.all_eq_true.mp hall item hit
  obtain ⟨hc1, hc2⟩ := build_count_facts bm b cnt hbm
  obtain ⟨hf1, hf2, hf3, -⟩ := fold_remove_nonfood items rm hkeys hnofood hhas
  refine ⟨by rw [hbe], by rw [hbe]; exact hc1, ?_, ?_, ?_, ?_⟩
  · intro b2 hb2
    rw [hbe]
    exact hc2 b2 hb2
  · intro item hit
    rw [hbe]
    exact hf1 item hit
  · intro s hs
    rw [hbe]
    exact hf2 s hs
  · rw [hbe]
    exact hf3

/-- Characterization of a successful farm `Build`: wood and stone are
deducted exactly, the aggregate food pool drops by 100 up to the clamp
slack, and everything else is untouched. -/
theorem build_farm_case (bm : BuildingManager) (rm : ResourceManager)
    (cnt : ℤ)
    (hcost : bm.buildingCosts "farm" =
      some [("wood", 100), ("stone", 50), ("food", 100)])
    (hbm : bm.buildings "farm" = some cnt)
    (hfs : rm.foodSources = ["foraging", "hunting"])
    (hnn : NonNeg rm)
    (hcb : bm.CanBuild "farm" rm = true) :
    (bm.Build "farm" rm).1 = true ∧
    (bm.Build "farm" rm).2.1.GetCount "farm" = bm.GetCount "farm" + 1 ∧
    (∀ b2, b2 ≠ "farm" →
      (bm.Build "farm" rm).2.1.GetCount b2 = bm.GetCount b2) ∧
    (bm.Build "farm" rm).2.2.Get "wood" = rm.Get "wood" - 100 ∧
    (bm.Build "farm" rm).2.2.Get "stone" = rm.Get "stone" - 50 ∧
    100 ≤ rm.GetTotalFood - (bm.Build "farm" rm).2.2.GetTotalFood ∧
    rm.GetTotalFood - (bm.Build "farm" rm).2.2.GetTotalFood <
      100 + 2 * (1/100000) ∧
    (∀ s, s ≠ "wood" → s ≠ "stone" → s ≠ "foraging" → s ≠ "hunting" →
      (bm.Build "farm" rm).2.2.resources s = rm.resources s) := by
  have hbe : bm.Build "farm" rm =
      (true, (bm.Add "farm" 1).2,
        [("wood", (100:ℚ)), ("stone", 50), ("food", 100)].foldl
          (fun r item => (r.Remove item.1 item.2).2) rm) := by
    unfold BuildingManager.Build
    rw [hcb, if_pos rfl, hcost]
  have hall : [("wood", (100:ℚ)), ("stone", 50), ("food", 100)].all
      (fun item => rm.Has item.1 item.2) = true := by
    have h := hcb
    unfold BuildingManager.CanBuild at h
    rw [hcost] at h
    exact h
  have hhas : ∀ item ∈ [("wood", (100:ℚ)), ("stone", 50), ("food", 100)],
      rm.Has item.1 item.2 = true :=
    fun item hit => List.all_eq_true.mp hall item hit
  have hw : rm.Has "wood" 100 = true := hhas ("wood", (100:ℚ)) (by simp)
  have hst : rm.Has "stone" 50 = true := hhas ("stone", (50:ℚ)) (by simp)
  have hfd : rm.Has "food" 100 = true := hhas ("food", (100:ℚ)) (by simp)
  obtain ⟨hc1, hc2⟩ := build_count_facts bm "farm" cnt hbm
  -- the two non-food deductions
  have hhas2 : ∀ item ∈ [("wood", (100:ℚ)), ("stone", 50)],
      rm.Has item.1 item.2 = true := by
    intro item hit
    rcases List.mem_cons.mp hit with rfl | hit2
    · exact hw
    · rcases List.mem_cons.mp hit2 with rfl | h3
      · exact hst
      · cases h3
  obtain ⟨hg2, hunch2, hfs2, -⟩ := fold_remove_nonfood
    [("wood", (100:ℚ)), ("stone", 50)] rm (by decide) (by decide) hhas2
  have hsplit : [("wood", (100:ℚ)), ("stone", 50), ("food", 100)].foldl
      (fun r item => (r.Remove item.1 item.2).2) rm =
      (([("wood", (100:ℚ)), ("stone", 50)].foldl
        (fun r item => (r.Remove item.1 item.2).2) rm).Remove "food" 100).2 := by
    simp only [List.foldl_cons, List.foldl_nil]
  set rm2 := [("wood", (100:ℚ)), ("stone", 50)].foldl
    (fun r item => (r.Remove item.1 item.2).2) rm with hrm2def
  have hfs2' : rm2.foodSources = ["foraging", "hunting"] := hfs2.trans hfs
  have hforag : lookup0 rm2.resources "foraging" =
      lookup0 rm.resources "foraging" := by
    unfold lookup0
    rw [hunch2 "foraging" (by decide)]
  have hhunt : lookup0 rm2.resources "hunting" =
      lookup0 rm.resources "hunting" := by
    unfold lookup0
    rw [hunch2 "hunting" (by decide)]
  have htotrm : rm.GetTotalFood =
      lookup0 rm.resources "foraging" + lookup0 rm.resources "hunting" :=
    getTotalFood_two rm hfs
  have htot2 : rm2.GetTotalFood = rm.GetTotalFood := by
    rw [getTotalFood_two rm2 hfs2', hforag, hhunt, htotrm]
  have hxt : (100:ℚ) ≤ lookup0 rm2.resources "foraging" +
      lookup0 rm2.resources "hunting" := by
    rw [hforag, hhunt, ← htotrm]
    exact (has_food_iff rm 100).mp hfd
  have hf2 : 0 ≤ lookup0 rm2.resources "foraging" := by
    rw [hforag]
    exact nonNeg_lookup0 hnn "foraging"
  have hh2 : 0 ≤ lookup0 rm2.resources "hunting" := by
    rw [hhunt]
    exact nonNeg_lookup0 hnn "hunting"
  have hbounds := removeFood_total_bounds rm2 100 hfs2' hf2 hh2
    (by norm_num) hxt
  obtain ⟨-, -, -, hspec4, -, -⟩ := removeFood_spec rm2 100 hfs2'
    (by norm_num) hxt
  have hremfood : rm2.Remove "food" 100 = rm2.RemoveFood 100 := by
    unfold ResourceManager.Remove
    rw [if_pos rfl]
  refine ⟨by rw [hbe], by rw [hbe]; exact hc1,
    fun b2 hb2 => by rw [hbe]; exact hc2 b2 hb2, ?_, ?_, ?_, ?_, ?_⟩
  · rw [hbe]
    show ([("wood", (100:ℚ)), ("stone", 50), ("food", 100)].foldl
      (fun r item => (r.Remove item.1 item.2).2) rm).Get "wood" = _
    rw [hsplit, hremfood, get_def, hspec4 "wood" (by decide) (by decide)]
    have := hg2 ("wood", (100:ℚ)) (by simp)
    rw [get_def] at this
    exact this
  · rw [hbe]
    show ([("wood", (100:ℚ)), ("stone", 50), ("food", 100)].foldl
      (fun r item => (r.Remove item.1 item.2).2) rm).Get "stone" = _
    rw [hsplit, hremfood, get_def, hspec4 "stone" (by decide) (by decide)]
    have := hg2 ("stone", (50:ℚ)) (by simp)
    rw [get_def] at this
    exact this
  · rw [hbe]
    show 100 ≤ rm.GetTotalFood -
      ([("wood", (100:ℚ)), ("stone", 50), ("food", 100)].foldl
        (fun r item => (r.Remove item.1 item.2).2) rm).GetTotalFood
    rw [hsplit, hremfood, ← htot2]
    exact hbounds.1
  · rw [hbe]
    show rm.GetTotalFood -
      ([("wood", (100:ℚ)), ("stone", 50), ("food", 100)].foldl
        (fun r item => (r.Remove item.1 item.2).2) rm).GetTotalFood <
      100 + 2 * (1/100000)
    rw [hsplit, hremfood, ← htot2]
    exact hbounds.2
  · intro s hsw hsst hsf hsh
    rw [hbe]
    show ([("wood", (100:ℚ)), ("stone", 50), ("food", 100)].foldl
      (fun r item => (r.Remove item.1 item.2).2) rm).resources s =
      rm.resources s
    rw [hsplit, hremfood, hspec4 s hsf hsh]
    refine hunch2 s ?_
    intro item hit
    rcases List.mem_cons.mp hit with rfl | hit2
    · exact hsw
    · rcases List.mem_cons.mp hit2 with rfl | h3
      · exact hsst
      · cases h3

/-- C4: with the catalog cost table, `Build` on any building name and
any ledger either fails (`CanBuild` false: unknown name or some
unaffordable line item) leaving registry and ledger unchanged, or
succeeds, incrementing exactly that building's count by one and
deducting every cost line item — non-food items exactly, the farm's
food item from the aggregate pool up to the clamp slack — while
touching no other stock. -/
theorem C4_build_atomicity (bm : BuildingManager) (rm : ResourceManager)
    (b : String)
    (hcosts : bm.buildingCosts = NewBuildingManager.buildingCosts)
    (hbuild : ∀ s, (bm.buildings s).isSome =
      (NewBuildingManager.buildings s).isSome)
    (hfs : rm.foodSources = ["foraging", "hunting"])
    (hnn : NonNeg rm) :
    (bm.CanBuild b rm = false → bm.Build b rm = (false, bm, rm)) ∧
    (bm.CanBuild b rm = true →
      (bm.Build b rm).1 = true ∧
      (bm.Build b rm).2.1.GetCount b = bm.GetCount b + 1 ∧
      (∀ b2, b2 ≠ b → (bm.Build b rm).2.1.GetCount b2 = bm.GetCount b2) ∧
      (∀ item ∈ (bm.buildingCosts b).getD [], item.1 ≠ "food" →
        (bm.Build b rm).2.2.Get item.1 = rm.Get item.1 - item.2) ∧
      (b = "farm" →
        100 ≤ rm.GetTotalFood - (bm.Build b rm).2.2.GetTotalFood ∧
        rm.GetTotalFood - (bm.Build b rm).2.2.GetTotalFood <
          100 + 2 * (1/100000)) ∧
      (∀ s, (∀ item ∈ (bm.buildingCosts b).getD [], s ≠ item.1) →
        s ∉ (["foraging", "hunting"] : List String) →
        (bm.Build b rm).2.2.resources s = rm.resources s)) := by
  constructor
  · intro hcb
    unfold BuildingManager.Build
    rw [hcb]
    simp
  · intro hcb
    by_cases h2 : b = "farm"
    · subst h2
      have hsome : (bm.buildings "farm").isSome = true := hbuild "farm"
      obtain ⟨cnt, hcnt⟩ := Option.isSome_iff_exists.mp hsome
      have hcost : bm.buildingCosts "farm" =
          some [("wood", 100), ("stone", 50), ("food", 100)] := by
        rw [hcosts]
        rfl
      have hgd : (bm.buildingCosts "farm").getD [] =
          [("wood", (100:ℚ)), ("stone", 50), ("food", 100)] := by
        rw [hcost]
        rfl
      obtain ⟨f1, f2, f3, f4, f5, f6, f7, f8⟩ :=
        build_farm_case bm rm cnt hcost hcnt hfs hnn hcb
      refine ⟨f1, f2, f3, ?_, fun _ => ⟨f6, f7⟩, ?_⟩
      · intro item hit hne
        rw [hgd] at hit
        rcases List.mem_cons.mp hit with rfl | hit2
        · exact f4
        · rcases List.mem_cons.mp hit2 with rfl | hit3
          · exact f5
          · rcases List.mem_cons.mp hit3 with rfl | h4
            · exact absurd rfl hne
            · cases h4
      · intro s hs hsfood
        rw [hgd] at hs
        have hsf : s ≠ "foraging" := by
          intro he
          exact hsfood (by rw [he]; simp)
        have hsh : s ≠ "hunting" := by
          intro he
          exact hsfood (by rw [he]; simp)
        exact f8 s (hs ("wood", (100:ℚ)) (by simp))
          (hs ("stone", (50:ℚ)) (by simp)) hsf hsh
    · have hgen : ∀ (bname : String) (items : List (String × ℚ)),
          b = bname →
          bm.buildingCosts bname = some items →
          (items.map Prod.fst).Nodup →
          (∀ item ∈ items, item.1 ≠ "food") →
          (bm.Build b rm).1 = true ∧
          (bm.Build b rm).2.1.GetCount b = bm.GetCount b + 1 ∧
          (∀ b2, b2 ≠ b → (bm.Build b rm).2.1.GetCount b2 = bm.GetCount b2) ∧
          (∀ item ∈ (bm.buildingCosts b).getD [], item.1 ≠ "food" →
            (bm.Build b rm).2.2.Get item.1 = rm.Get item.1 - item.2) ∧
          (b = "farm" →
            100 ≤ rm.GetTotalFood - (bm.Build b rm).2.2.GetTotalFood ∧
            rm.GetTotalFood - (bm.Build b rm).2.2.GetTotalFood <
              100 + 2 * (1/100000)) ∧
          (∀ s, (∀ item ∈ (bm.buildingCosts b).getD [], s ≠ item.1) →
            s ∉ (["foraging", "hunting"] : List String) →
            (bm.Build b rm).2.2.resources s = rm.resources s) := by
        intro bname items hbn hcost hkeys hnofood
        subst hbn
        have hsome : (bm.buildings b).isSome = true := by
          rw [hbuild b]
          revert hcost
          rw [hcosts]
          intro hcost
          revert hcost
          unfold NewBuildingManager
          simp only [mOfList, mset]
          split_ifs <;> simp_all
        obtain ⟨cnt, hcnt⟩ := Option.isSome_iff_exists.mp hsome
        have hgd : (bm.buildingCosts b).getD [] = items := by
          rw [hcost]
          rfl
        obtain ⟨g1, g2, g3, g4, g5, -⟩ :=
          build_nonfood_case bm rm b items cnt hcost hcnt hkeys hnofood hcb
        refine ⟨g1, g2, g3, ?_, fun hf => absurd hf h2, ?_⟩
        · intro item hit _
          rw [hgd] at hit
          exact g4 item hit
        · intro s hs _
          rw [hgd] at hs
          exact g5 s hs
      by_cases h1 : b = "hut"
      · exact hgen "hut" [("wood", 20)] h1 (by rw [hcosts]; rfl) (by decide)
          (by decide)
      · by_cases h3 : b = "lumber_mill"
        · exact hgen "lumber_mill" [("wood", 100), ("stone", 300)] h3
            (by rw [hcosts]; rfl) (by decide) (by decide)
        · by_cases h4 : b = "mine"
          · exact hgen "mine" [("wood", 100), ("stone", 400)] h4
              (by rw [hcosts]; rfl) (by decide) (by decide)
          · by_cases h5 : b = "market"
            · exact hgen "market" [("wood", 200), ("stone", 200), ("gold", 100)]
                h5 (by rw [hcosts]; rfl) (by decide) (by decide)
            · by_cases h6 : b = "library"
              · exact hgen "library"
                  [("wood", 400), ("stone", 200), ("knowledge", 100)] h6
                  (by rw [hcosts]; rfl) (by decide) (by decide)
              · exfalso
                have hnone : bm.buildingCosts b = none := by
                  rw [hcosts]
                  show NewBuildingManager.buildingCosts b = none
                  unfold NewBuildingManager
                  simp only [mOfList, mset]
                  simp [h1, h2, h3, h4, h5, h6]
                have hcbf : bm.CanBuild b rm = false := by
                  unfold BuildingManager.CanBuild
                  rw [hnone]
                rw [hcbf] at hcb
                cases hcb

/-- C4 witness: with 25 wood a hut (cost 20 wood) builds and its count
rises by one; with 0 wood (the spec's insufficient-stock scenario) the
build fails and registry and ledger are unchanged. -/
theorem C4_build_atomicity_witness :
    rmWood25.foodSources = ["foraging", "hunting"] ∧
    NonNeg rmWood25 ∧
    NewBuildingManager.CanBuild "hut" rmWood25 = true ∧
    (NewBuildingManager.Build "hut" rmWood25).1 = true ∧
    (NewBuildingManager.Build "hut" rmWood25).2.1.GetCount "hut" =
      NewBuildingManager.GetCount "hut" + 1 ∧
    NewBuildingManager.CanBuild "hut" rmExample5 = false ∧
    NewBuildingManager.Build "hut" rmExample5 =
      (false, NewBuildingManager, rmExample5) := by
  have hnn25 : NonNeg rmWood25 :=
    add_nonneg_pres _ "wood" 25 (by norm_num) nonNeg_new
  have hnn5 : NonNeg rmExample5 :=
    add_nonneg_pres _ "foraging" 5 (by norm_num) nonNeg_new
  have hcb : NewBuildingManager.CanBuild "hut" rmWood25 = true := by
    simp +decide [NewBuildingManager, BuildingManager.CanBuild,
      ResourceManager.Has, rmWood25, NewResourceManager,
      ResourceManager.Add, mset, mOfList, lookup0]
  have hcbf : NewBuildingManager.CanBuild "hut" rmExample5 = false := by
    simp +decide [NewBuildingManager, BuildingManager.CanBuild,
      ResourceManager.Has, rmExample5, NewResourceManager,
      ResourceManager.Add, mset, mOfList, lookup0]
  have happ := C4_build_atomicity NewBuildingManager rmWood25 "hut"
    rfl (fun _ => rfl) rfl hnn25
  have happf := C4_build_atomicity NewBuildingManager rmExample5 "hut"
    rfl (fun _ => rfl) rfl hnn5
  exact ⟨rfl, hnn25, hcb, (happ.2 hcb).1, (happ.2 hcb).2.1, hcbf,
    happf.1 hcbf⟩

/-- C8 witness: on the fresh board, starting "writing" succeeds and
sets the slot, while starting an unknown technology fails with no
state change. -/
theorem C8_start_research_conditions_witness :
    (NewResearchManager.StartResearch "writing" 0).1 = true ∧
    (NewResearchManager.StartResearch "writing" 0).2 =
      { NewResearchManager with
        currentResearch := "writing", researchProgress := 0 } ∧
    (NewResearchManager.StartResearch "unknown" 0).1 = false ∧
    NewResearchManager.StartResearch "unknown" 0 =
      (false, NewResearchManager) := by
  have happ := C8_start_research_conditions NewResearchManager "writing" 0
  have happ2 := C8_start_research_conditions NewResearchManager "unknown" 0
  have h1 : (NewResearchManager.StartResearch "writing" 0).1 = true := by
    apply happ.2.1.mpr
    exact ⟨{ Name := "Writing",
             Description := "Develop a writing system to record knowledge",
             Age := "Bronze Age", Cost := 40, Prerequisites := [] },
           rfl, rfl, by simp⟩
  have h3 : (NewResearchManager.StartResearch "unknown" 0).1 = false := rfl
  exact ⟨h1, happ.2.2 h1, h3, happ2.1 h3⟩
